import Mathlib

/-!
Verification of the excel-compare repository: a shallow embedding of the
Arabic text normalizer, the fuzzy matching engine, the key-column detector,
the file parser and the comparison/report engine, together with theorems
settling the specification's claims about them.

Conventions of the embedding:
* JavaScript strings are `String`; a JS value that may be `null` is an
  `Option`; a JS object field lookup that may be `undefined` is a further
  `Option` layer.
* JS floating point numbers are embedded as exact rationals `ℚ`; the one
  transcendental operation (`Math.exp` in `numericMatch`) makes scores
  real numbers `ℝ`, so match scores are `ℝ` and boolean flags computed
  from them are `Prop`.
-/

namespace ExcelCompare

/-! ## Character and string helpers shared by the modules -/

/-- JS `\s` whitespace, restricted to the ASCII whitespace characters. -/
def isWS (c : Char) : Bool :=
  c = ' ' ∨ c = '\t' ∨ c = '\n' ∨ c = '\r'

/-- JS `String.prototype.toLowerCase` on an ASCII letter. -/
def lowerChar (c : Char) : Char :=
  if 'A' ≤ c ∧ c ≤ 'Z' then Char.ofNat (c.toNat + 32) else c

/-- JS `String.prototype.toLowerCase`. -/
def jsToLower (s : String) : String := ⟨s.data.map lowerChar⟩

/-- Remove leading whitespace and trailing whitespace from a character list. -/
def trimChars (l : List Char) : List Char :=
  ((l.dropWhile isWS).reverse.dropWhile isWS).reverse

/-- JS `String.prototype.trim`. -/
def jsTrim (s : String) : String := ⟨trimChars s.data⟩

/-- Every whitespace character becomes a plain space. -/
def wsToSpace (c : Char) : Char := if isWS c then ' ' else c

/-- Collapse adjacent spaces: the recursive step of `replace(/\s+/g, ' ')`. -/
def squeezeSp : List Char → List Char
  | [] => []
  | [c] => [c]
  | a :: b :: t =>
    if a = ' ' ∧ b = ' ' then squeezeSp (b :: t) else a :: squeezeSp (b :: t)

/-- JS `replace(/\s+/g, ' ')`: whitespace runs become one space. -/
def collapseWS (l : List Char) : List Char := squeezeSp (l.map wsToSpace)

/-- Split at every whitespace character, keeping empty segments
(`split(/\s+/)` is this followed by dropping empty segments, up to the
leading empty segment which the callers filter away). -/
def splitAnyWS : List Char → List (List Char)
  | [] => [[]]
  | c :: t =>
    let r := splitAnyWS t
    if isWS c then [] :: r else (c :: r.headD []) :: r.tail

/-- JS `split(' ')`: split at every single space, keeping empty segments. -/
def splitOnSpace : List Char → List (List Char)
  | [] => [[]]
  | c :: t =>
    let r := splitOnSpace t
    if c = ' ' then [] :: r else (c :: r.headD []) :: r.tail

/-- First-occurrence deduplication, as a JS `Set` built from a list. -/
def dedupAux {α : Type} [DecidableEq α] : List α → List α → List α
  | [], _ => []
  | x :: t, seen => if x ∈ seen then dedupAux t seen else x :: dedupAux t (x :: seen)

/-- The distinct elements of a list in first-occurrence order. -/
def dedupFirst {α : Type} [DecidableEq α] (l : List α) : List α := dedupAux l []

/-- Does `hay` start with `needle`? -/
def startsWithChars : List Char → List Char → Bool
  | _, [] => true
  | [], _ :: _ => false
  | h :: hs, n :: ns => h = n && startsWithChars hs ns

/-- JS `String.prototype.includes`: `needle` occurs somewhere in `hay`. -/
def containsSub : List Char → List Char → Bool
  | hay, needle =>
    match hay with
    | [] => startsWithChars [] needle
    | _ :: t => startsWithChars hay needle || containsSub t needle

/-! ## Text Normalization Service (`arabicNormalizer.js`) -/

/-- Alef variants collapsed to plain Alef. -/
def alefChars : List Char := ['أ', 'إ', 'آ', 'ٱ', 'ٲ', 'ٳ']

/-- Yaa variants collapsed to `ي`. -/
def yaaChars : List Char := ['ى', 'ئ']

/-- Characters removed by the normalizer (hamza, diacritics, tatweel). -/
def removedChars : List Char := ['ء', 'ً', 'ٌ', 'ٍ', 'َ', 'ُ', 'ِ', 'ّ', 'ْ', 'ـ']

def mapAlef (c : Char) : Char := if c ∈ alefChars then 'ا' else c

def mapYaa (c : Char) : Char := if c ∈ yaaChars then 'ي' else c

def mapTaa (c : Char) : Char := if c = 'ة' then 'ه' else c

def mapWaw (c : Char) : Char := if c = 'ؤ' then 'و' else c

/-- The character passes of `ArabicNormalizer.normalize` in source order:
the four replacement tables, then removal, then whitespace collapsing and
trimming. -/
def normalizeChars (l : List Char) : List Char :=
  trimChars (collapseWS
    (((((l.map mapAlef).map mapYaa).map mapTaa).map mapWaw).filter
      (fun c => c ∉ removedChars)))

/-- `ArabicNormalizer.normalize` (the falsy guard returns `""` for the
empty string). -/
def normalize (s : String) : String :=
  if s = "" then "" else ⟨normalizeChars s.data⟩

/-- The punctuation set stripped by `ArabicNormalizer.clean`. -/
def punctChars : List Char :=
  ['.', ',', '،', '؛', ':', ';', '!', '?', '(', ')', '[', ']', '{', '}', '\'', '"', '«', '»']

/-- `ArabicNormalizer.clean`: collapse whitespace, trim, lower-case, strip
punctuation, then normalize word by word and re-join with single spaces. -/
def cleanStr (s : String) : String :=
  if s = "" then "" else
  let step1 := trimChars (collapseWS s.data)
  let step2 := step1.map lowerChar
  let step3 := step2.filter (fun c => c ∉ punctChars)
  ⟨List.intercalate [' ']
    ((splitOnSpace step3).map (fun w => (normalize ⟨w⟩).data))⟩

/-- One of the Arabic Unicode ranges tested by `isArabic`. -/
def isArabicChar (c : Char) : Bool :=
  (0x600 ≤ c.toNat ∧ c.toNat ≤ 0x6FF) ∨
  (0x750 ≤ c.toNat ∧ c.toNat ≤ 0x77F) ∨
  (0x8A0 ≤ c.toNat ∧ c.toNat ≤ 0x8FF)

/-- `ArabicNormalizer.isArabic`. -/
def isArabicStr (s : String) : Bool := s.data.any isArabicChar

/-! ## Matching Engine (`matcher.js`) -/

/-- The mutable configuration object of the Matcher, passed explicitly. -/
structure MatcherConfig where
  exactThreshold : ℚ
  highSimilarityThreshold : ℚ
  similarThreshold : ℚ
  weakMatchThreshold : ℚ
  numericTolerance : ℚ
  useArabicNormalization : Bool

/-- The default Matcher configuration. -/
def defaultConfig : MatcherConfig :=
  { exactThreshold := 1
    highSimilarityThreshold := 0.9
    similarThreshold := 0.75
    weakMatchThreshold := 0.6
    numericTolerance := 0.01
    useArabicNormalization := true }

/-- The `type` tag of a match result (`noMatch` embeds the source's
string `none`). -/
inductive MType where
  | exact | normalized | fuzzy_high | fuzzy | fuzzy_weak
  | numeric | numeric_tolerance | missing | noMatch
deriving DecidableEq

/-- Which fuzzy algorithm produced the winning score. -/
inductive FuzzyAlgo where
  | levenshtein | jaroWinkler | tokenSet
deriving DecidableEq

/-- The result object of `smartMatch`/`numericMatch`. Scores are real
numbers because the exponential-decay branch of `numericMatch` is
transcendental; boolean flags computed from real scores are `Prop`. -/
structure MatchResult where
  score : ℝ
  type : MType
  matched : Prop
  algorithm : Option FuzzyAlgo := none
  details : List (FuzzyAlgo × ℚ) := []
  difference : Option ℚ := none

/-- The edit-distance recurrence that the matrix loop of
`levenshteinSimilarity` tabulates (`matrix[i][j]` is the distance between
the length-`j` prefix of `a` and the length-`i` prefix of `b`; here the
same recurrence runs on suffixes): equal heads cost nothing, otherwise one
plus the minimum of substitution, insertion and deletion.  The `fuel`
argument makes the recursion structural; `a.length + b.length` steps
always suffice, since every branch shortens the combined length. -/
def levFuel : Nat → List Char → List Char → Nat
  | _, [], bs => bs.length
  | _, a :: as, [] => (a :: as).length
  | 0, _ :: _, _ :: _ => 0
  | fuel + 1, a :: as, b :: bs =>
    if a = b then levFuel fuel as bs
    else 1 + min (levFuel fuel as bs)
      (min (levFuel fuel (a :: as) bs) (levFuel fuel as (b :: bs)))

/-- The edit distance computed by `levenshteinSimilarity`'s matrix. -/
def levDist (a b : List Char) : Nat := levFuel (a.length + b.length) a b

/-- `Matcher.levenshteinSimilarity`. -/
def levenshteinSimilarity (a b : String) : ℚ :=
  if a = b then 1
  else if a = "" ∨ b = "" then 0
  else
    let distance := levDist a.data b.data
    let maxLen := max a.data.length b.data.length
    if maxLen = 0 then 1 else 1 - (distance : ℚ) / maxLen

/-- `Matcher.jaro`: greedy matching inside the match window, then the
transposition count over the matched characters in order. -/
def jaro (a b : String) : ℚ :=
  if a = b then 1 else
  let la := a.data
  let lb := b.data
  let lenA := la.length
  let lenB := lb.length
  let mw : ℤ := (max lenA lenB : ℤ) / 2 - 1
  let marks := (List.range lenA).foldl
    (fun (st : List Bool × List Bool) (i : ℕ) =>
      let lo : ℕ := (max 0 ((i : ℤ) - mw)).toNat
      let hi : ℕ := (min ((i : ℤ) + mw + 1) (lenB : ℤ)).toNat
      match (List.range lenB).find?
          (fun j => lo ≤ j ∧ j < hi ∧ st.2.getD j false = false ∧
            la.getD i ' ' = lb.getD j ' ') with
      | some j => (st.1.set i true, st.2.set j true)
      | none => st)
    (List.replicate lenA false, List.replicate lenB false)
  let m := (marks.1.filter id).length
  if m = 0 then 0 else
  let aChars := ((List.range lenA).filter (fun i => marks.1.getD i false)).map
    (fun i => la.getD i ' ')
  let bChars := ((List.range lenB).filter (fun j => marks.2.getD j false)).map
    (fun j => lb.getD j ' ')
  let t := ((aChars.zip bChars).filter (fun p => ¬ p.1 = p.2)).length
  ((m : ℚ) / lenA + (m : ℚ) / lenB + ((m : ℚ) - (t : ℚ) / 2) / m) / 3

/-- Common-prefix length, capped (the cap is 4 in `jaroWinkler`). -/
def commonPrefixCount : List Char → List Char → Nat → Nat
  | a :: as, b :: bs, cap + 1 => if a = b then 1 + commonPrefixCount as bs cap else 0
  | _, _, _ => 0

/-- `Matcher.jaroWinkler`. -/
def jaroWinkler (a b : String) : ℚ :=
  if a = b then 1
  else if a = "" ∨ b = "" then 0
  else
    let jaroScore := jaro a b
    let pref := commonPrefixCount a.data b.data 4
    jaroScore + (pref : ℚ) * 0.1 * (1 - jaroScore)

/-- The token set of `tokenSetRatio`: lower-case, split on whitespace,
drop empty tokens, deduplicate keeping first occurrences. -/
def tokenSetOf (s : String) : List String :=
  dedupFirst (((splitAnyWS (jsToLower s).data).filter (fun w => w.length > 0)).map
    (fun w => (⟨w⟩ : String)))

/-- `Matcher.tokenSetRatio`: the maximum of the Jaccard score, the scaled
subset score, and the average containment plus the partial-match bonus
computed from the first argument's unmatched tokens. -/
def tokenSetRatio (a b : String) : ℚ :=
  if a = b then 1
  else if a = "" ∨ b = "" then 0
  else
    let tokensA := tokenSetOf a
    let tokensB := tokenSetOf b
    if tokensA = [] ∧ tokensB = [] then 1
    else if tokensA = [] ∨ tokensB = [] then 0
    else
      let inter := tokensA.filter (fun t => t ∈ tokensB)
      let uni := dedupFirst (tokensA ++ tokensB)
      let jaccardScore := (inter.length : ℚ) / uni.length
      let subsetScore := (inter.length : ℚ) / min tokensA.length tokensB.length
      let unmatchedA := tokensA.filter (fun t => t ∉ tokensB)
      let unmatchedB := tokensB.filter (fun t => t ∉ tokensA)
      let bestSum := (unmatchedA.map
        (fun ta => (unmatchedB.map (fun tb => levenshteinSimilarity ta tb)).foldl max 0)).sum
      let partialMatchScore : ℚ :=
        if unmatchedA.length > 0 then bestSum / unmatchedA.length * 0.5 else 0
      max jaccardScore (max (subsetScore * 0.95)
        (((inter.length : ℚ) / tokensA.length + (inter.length : ℚ) / tokensB.length) / 2
          + partialMatchScore * 0.3))

/-- JS `str.replace(/[^\d.-]/g, '')`. -/
def stripNonNumeric (l : List Char) : List Char :=
  l.filter (fun c => c.isDigit ∨ c = '.' ∨ c = '-')

/-- The numeric value of a digit string. -/
def digitsToNat (l : List Char) : Nat :=
  l.foldl (fun n c => n * 10 + (c.toNat - '0'.toNat)) 0

/-- JS `parseFloat` on a string whose characters are only digits, `.` and
`-` (what `stripNonNumeric` produces): an optional leading minus sign,
then the longest `digits[.digits]` prefix; `none` embeds `NaN`. -/
def parseFloatQ (l : List Char) : Option ℚ :=
  let neg : Bool := l.headD ' ' = '-'
  let r1 := if neg then l.tail else l
  let ip := r1.takeWhile Char.isDigit
  let r2 := r1.drop ip.length
  let fp := if r2.headD ' ' = '.' then r2.tail.takeWhile Char.isDigit else []
  if ip = [] ∧ fp = [] then none
  else
    let mag : ℚ := (digitsToNat ip : ℚ) + (digitsToNat fp : ℚ) / ((10 : ℚ) ^ fp.length)
    some (if neg then -mag else mag)

/-- `Matcher.numericMatch`: exact equality, zero-average guard, relative
tolerance, then exponential decay. -/
noncomputable def numericMatch (cfg : MatcherConfig) (a b : ℚ) : MatchResult :=
  if a = b then { score := 1, type := .exact, matched := True }
  else
    let diff := |a - b|
    let avg := (|a| + |b|) / 2
    if avg = 0 then
      { score := if diff = 0 then 1 else 0, type := .numeric, matched := diff = 0 }
    else
      let percentDiff := diff / avg
      if percentDiff ≤ cfg.numericTolerance then
        { score := ((1 - percentDiff : ℚ) : ℝ), type := .numeric_tolerance,
          matched := True, difference := some diff }
      else
        let score : ℝ := Real.exp (-(percentDiff : ℝ) * 5)
        { score := score, type := .numeric,
          matched := ((cfg.weakMatchThreshold : ℝ) ≤ score), difference := some diff }

/-- The three fuzzy scores of `smartMatch`, in source order. -/
def fuzzyScores (a b : String) : List (FuzzyAlgo × ℚ) :=
  [(.levenshtein, levenshteinSimilarity a b),
   (.jaroWinkler, jaroWinkler a b),
   (.tokenSet, tokenSetRatio a b)]

/-- The `reduce` picking the best of the three fuzzy scores (strictly
greater replaces, so the earliest maximum wins). -/
def bestFuzzy (a b : String) : FuzzyAlgo × ℚ :=
  (fuzzyScores a b).tail.foldl
    (fun best cur => if best.2 < cur.2 then cur else best)
    ((fuzzyScores a b).headD (.levenshtein, 0))

/-- The tail of `smartMatch`: classify the winning fuzzy score against the
threshold ladder. -/
noncomputable def bestFuzzyResult (cfg : MatcherConfig) (a b : String) : MatchResult :=
  let best := bestFuzzy a b
  let tm : MType × Prop :=
    if cfg.highSimilarityThreshold ≤ best.2 then (.fuzzy_high, True)
    else if cfg.similarThreshold ≤ best.2 then (.fuzzy, True)
    else if cfg.weakMatchThreshold ≤ best.2 then (.fuzzy_weak, True)
    else (.noMatch, False)
  { score := (best.2 : ℝ), type := tm.1, matched := tm.2,
    algorithm := some best.1, details := fuzzyScores a b }

open scoped Classical in
/-- `Matcher.smartMatch` on values embedded as `Option String` (a JS value
reaching the function is either `null`/`undefined`, or behaves through its
stringification `String(v)`). -/
noncomputable def smartMatch (cfg : MatcherConfig) (valueA valueB : Option String) :
    MatchResult :=
  match valueA, valueB with
  | none, none => { score := 1, type := .exact, matched := True }
  | none, some _ => { score := 0, type := .missing, matched := False }
  | some _, none => { score := 0, type := .missing, matched := False }
  | some va, some vb =>
    let strA := jsTrim va
    let strB := jsTrim vb
    if strA = "" ∧ strB = "" then { score := 1, type := .exact, matched := True }
    else if strA = "" ∨ strB = "" then { score := 0, type := .missing, matched := False }
    else if strA = strB then { score := 1, type := .exact, matched := True }
    else if jsToLower strA = jsToLower strB then
      { score := 0.99, type := .exact, matched := True }
    else
      let numRes : Option MatchResult :=
        match parseFloatQ (stripNonNumeric strA.data),
              parseFloatQ (stripNonNumeric strB.data) with
        | some numA, some numB =>
          let nr := numericMatch cfg numA numB
          if ((cfg.similarThreshold : ℝ) ≤ nr.score) then some nr else none
        | _, _ => none
      match numRes with
      | some r => r
      | none =>
        let useAr := cfg.useArabicNormalization && (isArabicStr strA || isArabicStr strB)
        let cleanA := if useAr then cleanStr strA else jsToLower strA
        let cleanB := if useAr then cleanStr strB else jsToLower strB
        if useAr ∧ cleanA = cleanB then
          { score := 0.98, type := .normalized, matched := True }
        else bestFuzzyResult cfg cleanA cleanB

/-! ## Shared tabular data model

A cell value that may be JS `null` is `Option String`; a field lookup in a
row object yields a further `Option` (`none` embeds `undefined`).  The
internal `_rowIndex` property set by the parser is carried as a separate
structure field. -/

/-- A JS cell value: `none` is `null`, otherwise the stringified value. -/
abbrev Cell := Option String

/-- A parsed row object: fields keyed by header name, plus `_rowIndex`. -/
structure Row where
  data : List (String × Cell)
  rowIndex : Nat
deriving DecidableEq

/-- A parsed header (`index`, trimmed defaulted `name`, raw `originalName`). -/
structure Header where
  index : Nat
  name : String
  originalName : String
deriving DecidableEq

/-! ## Key Column Detector (`keyDetector.js`) -/

/-- The detected column type. -/
inductive KType where
  | id | name | phone | email | nationalId
deriving DecidableEq

/-- One entry of the `KeyDetector.patterns` table. -/
structure KPattern where
  type : KType
  keywords : List String
  priority : Nat

/-- `KeyDetector.patterns`, in object-entry order. -/
def patterns : List KPattern :=
  [⟨.id,
    ["id", "ID", "رقم", "كود", "تعريفي", "معرف", "code", "Code",
     "employeeid", "employee_id", "رقم_الموظف", "رقم الموظف",
     "userid", "user_id", "رقم المستخدم", "serial", "سيريال",
     "رقم_تعريفي", "الرقم", "index", "no", "num", "number", "#",
     "مسلسل", "رقم_مسلسل", "الكود", "ref", "reference", "مرجع"], 1⟩,
   ⟨.name,
    ["name", "Name", "اسم", "الاسم", "employee", "موظف", "اسم_الموظف",
     "fullname", "full_name", "الاسم_الكامل", "first_name", "last_name",
     "الاسم الاول", "الاسم الأول", "اسم العائلة", "username", "اسم المستخدم",
     "person", "شخص", "عامل", "مستخدم", "الموظف"], 2⟩,
   ⟨.phone,
    ["phone", "Phone", "هاتف", "جوال", "تليفون", "موبايل", "mobile",
     "Mobile", "telephone", "tel", "رقم_الهاتف", "رقم الهاتف",
     "رقم الجوال", "الموبايل", "cell", "contact", "اتصال"], 3⟩,
   ⟨.email,
    ["email", "Email", "بريد", "إيميل", "ايميل", "mail", "Mail",
     "البريد", "البريد الإلكتروني", "البريد_الالكتروني", "e-mail",
     "contact_email", "بريد_الكتروني"], 4⟩,
   ⟨.nationalId,
    ["national", "رقم_الهوية", "هوية", "الهوية", "رقم الهوية",
     "ssn", "national_id", "رقم_قومي", "الرقم القومي", "identity",
     "passport", "جواز", "جواز_السفر", "إقامة", "اقامة"], 2⟩]

/-- A header with its accumulated detection score. -/
structure ScoredHeader where
  header : Header
  score : Nat
  type : Option KType
  confidence : ℚ
  reasons : List String

/-- The result record of `analyzeColumnData`. -/
structure DataAnalysis where
  score : Nat
  reasons : List String
  detectedType : Option KType

/-- The regex `^\d+$` on the trimmed stringification of a value. -/
def isNumericId (v : String) : Bool :=
  let t := (jsTrim v).data
  ¬ t = [] ∧ t.all Char.isDigit

/-- The regex `^[^\s@]+@[^\s@]+\.[^\s@]+$`: one `@`, no whitespace, a
non-empty local part, and after the `@` a dot with at least one character
on each side (any dot position works, matching the regex backtracking). -/
def emailLike (v : String) : Bool :=
  let cs := v.data
  let localPart := cs.takeWhile (fun c => ¬ c = '@' ∧ ¬ (isWS c = true))
  match cs.drop localPart.length with
  | '@' :: after =>
    ¬ localPart = [] ∧ after.all (fun c => ¬ c = '@' ∧ ¬ (isWS c = true)) ∧
    (List.range after.length).any
      (fun i => after.getD i ' ' = '.' ∧ 1 ≤ i ∧ i + 1 < after.length)
  | _ => false

/-- A character allowed after the leading digit group of the phone regex. -/
def phoneTailChar (c : Char) : Bool :=
  c.isDigit ∨ c = '-' ∨ c = '.' ∨ c = '/'

/-- The regex `^[\+]?[(]?[0-9]{1,4}[)]?[-\s\./0-9]*$` on the
whitespace-stripped value, plus the length bounds 8–15: an optional `+`,
an optional `(`, one to four digits, an optional `)`, then only digits
and `-`, `.`, `/` (the digit-group length `k` ranges over the regex
backtracking choices). -/
def phoneLike (v : String) : Bool :=
  let str := v.data.filter (fun c => ¬ (isWS c = true))
  let c1 := if str.headD ' ' = '+' then str.tail else str
  let c2 := if c1.headD ' ' = '(' then c1.tail else c1
  let ds := c2.takeWhile Char.isDigit
  (¬ ds = [] ∧
    (List.range (min 4 ds.length)).any (fun k0 =>
      let r := c2.drop (k0 + 1)
      let r2 := if r.headD ' ' = ')' then r.tail else r
      r2.all phoneTailChar)) ∧
  8 ≤ str.length ∧ str.length ≤ 15

/-- A character of the name regex class `[؀-ۿa-zA-Z\s]`. -/
def nameChar (c : Char) : Bool :=
  (0x600 ≤ c.toNat ∧ c.toNat ≤ 0x6FF) ∨ ('a' ≤ c ∧ c ≤ 'z') ∨
  ('A' ≤ c ∧ c ≤ 'Z') ∨ isWS c = true

/-- The name shape test: 2–5 whitespace-separated words of Arabic/Latin
letters. -/
def nameLike (v : String) : Bool :=
  let str := jsTrim v
  let words := (splitAnyWS str.data).filter (fun w => ¬ w = [])
  2 ≤ words.length ∧ words.length ≤ 5 ∧
  ¬ str.data = [] ∧ str.data.all nameChar

/-- `KeyDetector.analyzeColumnData`: the uniqueness, numeric-id, email,
phone and name bonuses, applied in source order. -/
def analyzeColumnData (values : List (Option Cell)) : DataAnalysis :=
  let base : DataAnalysis := ⟨0, [], none⟩
  if values.length = 0 then base
  else
    let nonEmpty :=
      ((values.filterMap id).filterMap id).filter (fun v => ¬ jsTrim v = "")
    if nonEmpty.length = 0 then base
    else
      let total := nonEmpty.length
      let uniqueCount := (dedupFirst (nonEmpty.map jsToLower)).length
      let r1 := if (uniqueCount : ℚ) / total > 0.95 then
          { base with
            score := base.score + 5
            reasons := base.reasons ++ ["قيم فريدة بنسبة عالية"] }
        else base
      let numericCount := (nonEmpty.filter isNumericId).length
      let r2 := if (numericCount : ℚ) / total > 0.9 then
          { r1 with
            score := r1.score + 3
            reasons := r1.reasons ++ ["أرقام تعريفية"]
            detectedType := some .id }
        else r1
      let emailCount := (nonEmpty.filter emailLike).length
      let r3 := if (emailCount : ℚ) / total > 0.5 then
          { r2 with
            score := r2.score + 4
            reasons := r2.reasons ++ ["عناوين بريد إلكتروني"]
            detectedType := some .email }
        else r2
      let phoneCount := (nonEmpty.filter phoneLike).length
      let r4 := if (phoneCount : ℚ) / total > 0.5 then
          { r3 with
            score := r3.score + 3
            reasons := r3.reasons ++ ["أرقام هاتف"]
            detectedType := some .phone }
        else r3
      let nameCount := (nonEmpty.filter nameLike).length
      if (nameCount : ℚ) / total > 0.5 then
        { r4 with
          score := r4.score + 2
          reasons := r4.reasons ++ ["أسماء أشخاص"]
          detectedType := if r4.detectedType = none then some .name else r4.detectedType }
      else r4

/-- The keyword pass over one header: every pattern whose keyword list has
a case-insensitive substring match adds `(10 − priority) × 2` once (the
first matching keyword short-circuits that pattern's loop) and overwrites
the guessed type. -/
def keywordPass (item : ScoredHeader) : ScoredHeader :=
  let headerName := jsToLower item.header.name
  patterns.foldl
    (fun it pat =>
      match pat.keywords.find?
          (fun kw => containsSub headerName.data (jsToLower kw).data) with
      | some kw =>
        { it with
          score := it.score + (10 - pat.priority) * 2
          type := some pat.type
          reasons := it.reasons ++ ["يحتوي على كلمة \"" ++ kw ++ "\""] }
      | none => it)
    item

/-- The per-header scoring of `detectKeyColumn`: the keyword pass, then
(when sample rows exist) the data-shape bonus, whose detected type is
taken only when the keyword pass found none. -/
def scoreHeader (rows : List Row) (h : Header) : ScoredHeader :=
  let afterKw := keywordPass ⟨h, 0, none, 0, []⟩
  if rows.length > 0 then
    let columnValues := rows.map (fun row => row.data.lookup h.name)
    let da := analyzeColumnData columnValues
    { afterKw with
      score := afterKw.score + da.score
      reasons := afterKw.reasons ++ da.reasons
      type := if da.detectedType.isSome ∧ afterKw.type = none then da.detectedType
              else afterKw.type }
  else afterKw

/-- Stable descending insertion by score (JS `sort((a,b) => b.score - a.score)`). -/
def insertDesc (x : ScoredHeader) : List ScoredHeader → List ScoredHeader
  | [] => [x]
  | y :: t => if y.score < x.score then x :: y :: t else y :: insertDesc x t

/-- Stable sort by descending score. -/
def sortByScoreDesc (l : List ScoredHeader) : List ScoredHeader :=
  l.foldl (fun acc x => insertDesc x acc) []

/-- The result of `detectKeyColumn`. -/
structure Detection where
  suggested : Option ScoredHeader
  allScores : List ScoredHeader
  hasConfidentMatch : Bool

/-- `KeyDetector.detectKeyColumn`: score every header, sort descending,
write `confidence = min(score/20, 1)` into the top entry when its score is
positive, suggest it, and flag confidence at score ≥ 10. -/
def detectKeyColumn (headers : List Header) (rows : List Row) : Detection :=
  let scores := sortByScoreDesc (headers.map (scoreHeader rows))
  let scores2 := match scores with
    | [] => []
    | top :: rest =>
      if top.score > 0 then
        { top with confidence := min ((top.score : ℚ) / 20) 1 } :: rest
      else top :: rest
  { suggested := match scores2 with
      | [] => none
      | top :: _ => if top.score > 0 then some top else none
    allScores := scores2
    hasConfidentMatch := match scores2 with
      | [] => false
      | top :: _ => 10 ≤ top.score }

/-! ## File Ingestion Service (`fileParser.js`) -/

/-- A sheet extracted by `extractWorkbookData`. -/
structure ParsedSheet where
  name : String
  headers : List Header
  rows : List Row
  rowCount : Nat
  columnCount : Nat
deriving DecidableEq

/-- The result of `extractWorkbookData` for one file. -/
structure ParsedFile where
  fileName : String
  sheets : List ParsedSheet
  sheetCount : Nat
  totalRows : Nat
deriving DecidableEq

/-- JS object property assignment `obj[k] = v`: update in place, or append. -/
def objSet : List (String × Cell) → String → Cell → List (String × Cell)
  | [], k, v => [(k, v)]
  | (k', v') :: t, k, v =>
    if k' = k then (k', v) :: t else (k', v') :: objSet t k v

/-- The header row of a sheet: stringified, defaulted to `Column <n>` when
the raw cell is falsy, then trimmed. -/
def mkHeaders (firstRow : List String) : List Header :=
  firstRow.enum.map
    (fun p => ⟨p.1, jsTrim (if p.2 = "" then "Column " ++ toString (p.1 + 1) else p.2), p.2⟩)

/-- One data row: every header's cell, missing cells defaulted to `""`
(colliding header names overwrite earlier entries), plus the row index. -/
def mkRow (headers : List Header) (rowIndex : Nat) (cells : List String) : Row :=
  ⟨headers.enum.foldl
    (fun rd p => objSet rd p.2.name (some (cells.getD p.1 "")))
    [], rowIndex⟩

/-- One extracted sheet from its `sheet_to_json` output. -/
def mkSheet (name : String) (jsonData : List (List String)) : ParsedSheet :=
  let headers := mkHeaders (jsonData.headD [])
  let rows := jsonData.tail.enum.map (fun p => mkRow headers p.1 p.2)
  ⟨name, headers, rows, rows.length, headers.length⟩

/-- `FileParser.extractWorkbookData`: a workbook is the ordered list of
its sheets' `sheet_to_json` outputs (rows of stringified cells, with the
parsing library's `defval: ''` making absent cells empty strings); a sheet
whose output is empty is skipped. -/
def extractWorkbookData (workbook : List (String × List (List String)))
    (fileName : String) : ParsedFile :=
  let sheets := workbook.foldl
    (fun acc e => if e.2.length = 0 then acc else acc ++ [mkSheet e.1 e.2]) []
  ⟨fileName, sheets, sheets.length, (sheets.map (fun s => s.rowCount)).sum⟩

/-- A comparison-ready sheet produced by `prepareForComparison`. -/
structure PrepSheet where
  id : String
  label : String
  fileName : String
  sheetName : String
  headers : List Header
  rows : List Row
  rowCount : Nat
deriving DecidableEq

/-- The result of `prepareForComparison`. -/
structure PrepOutput where
  sheets : List PrepSheet
  sheetCount : Nat
  commonColumns : List String

/-- `FileParser.findCommonColumns`. -/
def findCommonColumns (sheets : List PrepSheet) : List String :=
  if sheets.length = 0 then []
  else
    let columnSets := sheets.map
      (fun sh => dedupFirst (sh.headers.map (fun h => jsToLower h.name)))
    (columnSets.headD []).filter (fun col => columnSets.all (fun set => col ∈ set))

/-- `FileParser.prepareForComparison`: flatten every file's sheets, with
the synthetic id `file<i>_sheet<j>` and the label — the file name alone
for a single-sheet file, `"<fileName> - <sheetName>"` otherwise. -/
def prepareForComparison (parsedFiles : List ParsedFile) : PrepOutput :=
  let allSheets := (parsedFiles.enum.map
    (fun fp => fp.2.sheets.enum.map
      (fun sp =>
        ({ id := "file" ++ toString fp.1 ++ "_sheet" ++ toString sp.1,
           label := if fp.2.sheets.length > 1
             then fp.2.fileName ++ " - " ++ sp.2.name
             else fp.2.fileName,
           fileName := fp.2.fileName,
           sheetName := sp.2.name,
           headers := sp.2.headers,
           rows := sp.2.rows,
           rowCount := sp.2.rowCount } : PrepSheet)))).flatten
  ⟨allSheets, allSheets.length, findCommonColumns allSheets⟩

/-! ## Comparison/Report Engine (`reporter.js`) -/

/-- A record's classification status (`unknown` is only the initial value). -/
inductive RStatus where
  | unknown | matched | similar | missing | conflict
deriving DecidableEq

/-- One occurrence of a key in a sheet. -/
structure Occurrence where
  sheetIndex : Nat
  sheetName : String
  row : Row
  rowIndex : Nat

/-- The result of `compareColumnValues` (flags from real scores are `Prop`). -/
structure ColComp where
  score : ℝ
  isExact : Prop
  isFuzzy : Prop
  isConflict : Prop
  values : List String
  variance : ℝ

/-- The result of `analyzeRecord` (the `missing` branch leaves
`columnComparisons` empty, the other branch leaves `missingInSheets` empty). -/
structure RecAnalysis where
  status : RStatus
  matchScore : ℝ
  presentIn : Nat
  totalSheets : Nat
  missingInSheets : List Nat
  columnComparisons : List (String × ColComp)
  details : String

/-- A record merged across sheets. -/
structure Record where
  key : String
  occurrences : List Occurrence
  sheetPresence : List (Option Row)
  status : RStatus
  analysis : Option RecAnalysis

/-- All ordered pairs `(l[i], l[j])` with `i < j` (the double loop of
`compareColumnValues`). -/
def listPairs {α : Type} : List α → List (α × α)
  | [] => []
  | x :: t => t.map (fun y => (x, y)) ++ listPairs t

/-- `Reporter.compareColumnValues`: drop null/undefined, then the pairwise
minimum/maximum `smartMatch` score over the remaining values. -/
noncomputable def compareColumnValues (cfg : MatcherConfig)
    (values : List (Option Cell)) : ColComp :=
  let nonNull := (values.filterMap id).filterMap id
  if nonNull.length = 0 then
    { score := 1, isExact := True, isFuzzy := False, isConflict := False,
      values := nonNull, variance := 0 }
  else if nonNull.length = 1 then
    { score := 1, isExact := True, isFuzzy := False, isConflict := False,
      values := nonNull, variance := 0 }
  else
    let pairScores := (listPairs nonNull).map
      (fun p => (smartMatch cfg (some p.1) (some p.2)).score)
    let minScore := pairScores.foldl min 1
    let maxScore := pairScores.foldl max 0
    { score := (minScore + maxScore) / 2,
      isExact := (0.99 : ℝ) ≤ minScore,
      isFuzzy := minScore < 0.99 ∧ (0.6 : ℝ) ≤ minScore,
      isConflict := minScore < 0.6,
      values := nonNull,
      variance := maxScore - minScore }

/-- The human-readable details string of `analyzeRecord`. -/
noncomputable def getStatusDetails (status : RStatus) (score : ℝ) : String :=
  match status with
  | .matched => "متطابق في جميع الشيتات"
  | .similar => "متشابه (" ++ toString (round (score * 100)) ++ "%)"
  | .missing => "غير موجود في بعض الشيتات"
  | .conflict => "توجد تناقضات في البيانات"
  | .unknown => "unknown"

/-- The accumulator of `analyzeRecord`'s column loop. -/
structure AnalyzeAcc where
  totalScore : ℝ
  hasConflict : Prop
  hasFuzzyMatch : Prop
  comps : List (String × ColComp)

/-- The values of one column across a record's sheet slots
(`row ? row[column] : null`). -/
def columnValuesOf (record : Record) (column : String) : List (Option Cell) :=
  record.sheetPresence.map (fun r? =>
    match r? with
    | some row => row.data.lookup column
    | none => some none)

open scoped Classical in
/-- `Reporter.analyzeRecord`: the `missing` early return, then the column
comparison loop and the status ladder. -/
noncomputable def analyzeRecord (cfg : MatcherConfig) (record : Record)
    (sheetCount : Nat) (columnsToCompare : List String) : RecAnalysis :=
  let presentInSheets := (record.sheetPresence.filter (fun p => p.isSome)).length
  if presentInSheets < sheetCount then
    { status := .missing, presentIn := presentInSheets, totalSheets := sheetCount,
      missingInSheets :=
        (record.sheetPresence.enum.filter (fun p => p.2 = none)).map (fun p => p.1),
      matchScore := (presentInSheets : ℝ) / (sheetCount : ℝ),
      columnComparisons := [],
      details := "موجود في " ++ toString presentInSheets ++ " من " ++
        toString sheetCount ++ " شيتات" }
  else
    let acc := columnsToCompare.foldl
      (fun acc column =>
        let comparison := compareColumnValues cfg (columnValuesOf record column)
        { totalScore := acc.totalScore + comparison.score,
          hasConflict := acc.hasConflict ∨ comparison.isConflict,
          hasFuzzyMatch := acc.hasFuzzyMatch ∨ comparison.isFuzzy,
          comps := acc.comps ++ [(column, comparison)] })
      (⟨0, False, False, []⟩ : AnalyzeAcc)
    let avgScore : ℝ :=
      if columnsToCompare.length > 0 then acc.totalScore / columnsToCompare.length else 1
    let status : RStatus :=
      if acc.hasConflict ∧ avgScore < 0.5 then .conflict
      else if 0.95 ≤ avgScore then .matched
      else if (cfg.similarThreshold : ℝ) ≤ avgScore then .similar
      else .conflict
    { status := status, matchScore := avgScore, presentIn := presentInSheets,
      totalSheets := sheetCount, missingInSheets := [],
      columnComparisons := acc.comps,
      details := getStatusDetails status avgScore }

/-- Read a row's key value: `undefined`, `null` and trim-empty all skip
the row; otherwise the trimmed key string. -/
def keyStrOf (keyColumn : String) (row : Row) : Option String :=
  match row.data.lookup keyColumn with
  | none => none
  | some none => none
  | some (some s) => if jsTrim s = "" then none else some (jsTrim s)

/-- A fresh record for a key (one empty slot per compared sheet). -/
def newRecord (sheetTotal : Nat) (keyStr : String) : Record :=
  ⟨keyStr, [], List.replicate sheetTotal none, .unknown, none⟩

/-- Append an occurrence and set the sheet's presence slot. -/
def recUpdate (sheetIndex : Nat) (label : String) (row : Row) (rowIndex : Nat)
    (r : Record) : Record :=
  { r with occurrences := r.occurrences ++ [⟨sheetIndex, label, row, rowIndex⟩],
           sheetPresence := r.sheetPresence.set sheetIndex (some row) }

/-- Get-or-create in the insertion-ordered record map. -/
def mapAdd (sheetTotal sheetIndex : Nat) (label : String) (row : Row)
    (rowIndex : Nat) (keyStr : String) :
    List (String × Record) → List (String × Record)
  | [] => [(keyStr, recUpdate sheetIndex label row rowIndex (newRecord sheetTotal keyStr))]
  | (k, r) :: t =>
    if k = keyStr then (k, recUpdate sheetIndex label row rowIndex r) :: t
    else (k, r) :: mapAdd sheetTotal sheetIndex label row rowIndex keyStr t

/-- The row loop of `compareSheets`' build phase for one sheet. -/
def processSheet (sheetTotal : Nat) (keyColumn : String)
    (m : List (String × Record)) (p : Nat × PrepSheet) : List (String × Record) :=
  p.2.rows.enum.foldl
    (fun m' q =>
      match keyStrOf keyColumn q.2 with
      | none => m'
      | some ks => mapAdd sheetTotal p.1 p.2.label q.2 q.1 ks m')
    m

/-- The build phase of `compareSheets`: the insertion-ordered record map. -/
def buildMap (sheets : List PrepSheet) (keyColumn : String) :
    List (String × Record) :=
  sheets.enum.foldl (processSheet sheets.length keyColumn) []

/-- The five result buckets of a comparison report. -/
structure Results where
  exactMatches : List Record
  fuzzyMatches : List Record
  differences : List Record
  conflicts : List Record
  all : List Record

/-- Push an analyzed record into its status bucket and into `all`. -/
def pushRecord (res : Results) (r : Record) : Results :=
  let res1 := match r.status with
    | .matched => { res with exactMatches := res.exactMatches ++ [r] }
    | .similar => { res with fuzzyMatches := res.fuzzyMatches ++ [r] }
    | .missing => { res with differences := res.differences ++ [r] }
    | .conflict => { res with conflicts := res.conflicts ++ [r] }
    | .unknown => res
  { res1 with all := res1.all ++ [r] }

/-- The classification phase of `compareSheets`: analyze each record in
map order, store its status and analysis, and bucket it. -/
noncomputable def categorize (cfg : MatcherConfig) (sheetCount : Nat)
    (cols : List String) (records : List Record) : Results :=
  records.foldl
    (fun res rec =>
      let analysis := analyzeRecord cfg rec sheetCount cols
      pushRecord res { rec with status := analysis.status, analysis := some analysis })
    ⟨[], [], [], [], []⟩

/-- The `summary` object of a report. -/
structure Summary where
  totalRecords : Nat
  exactMatches : Nat
  fuzzyMatches : Nat
  differences : Nat
  conflicts : Nat
  sheetsCompared : Nat
  keyColumn : String
  columnsCompared : Nat

/-- The per-sheet entry of a report's `sheets` list. -/
structure SheetInfo where
  name : String
  rowCount : Nat

/-- A comparison report. -/
structure Report where
  results : Results
  summary : Summary
  sheets : List SheetInfo
  keyColumn : String
  columns : List String

/-- The body of `Reporter.compareSheets` after its length guard: override
the similarity threshold, build the record map, analyze and bucket every
record, and assemble the report. -/
noncomputable def buildReport (sheets : List PrepSheet) (keyColumn : String)
    (compareColumns : Option (List String)) (threshold : ℚ) : Report :=
  let cfg := { defaultConfig with similarThreshold := threshold }
  let allColumns := dedupFirst ((sheets.map (fun s => s.headers.map (fun h => h.name))).flatten)
  let recordMap := buildMap sheets keyColumn
  let columnsToCompare := compareColumns.getD (allColumns.filter (fun c => ¬ c = keyColumn))
  let results := categorize cfg sheets.length columnsToCompare (recordMap.map (fun e => e.2))
  { results := results
    summary := {
      totalRecords := recordMap.length
      exactMatches := results.exactMatches.length
      fuzzyMatches := results.fuzzyMatches.length
      differences := results.differences.length
      conflicts := results.conflicts.length
      sheetsCompared := sheets.length
      keyColumn := keyColumn
      columnsCompared := columnsToCompare.length }
    sheets := sheets.map (fun s => ⟨s.label, s.rowCount⟩)
    keyColumn := keyColumn
    columns := allColumns }

/-- `Reporter.compareSheets`: at least two sheets, else the error. -/
noncomputable def compareSheets (sheets : List PrepSheet) (keyColumn : String)
    (compareColumns : Option (List String)) (threshold : ℚ) :
    Except String Report :=
  if sheets.length < 2 then .error "يجب رفع ملفين على الأقل للمقارنة"
  else .ok (buildReport sheets keyColumn compareColumns threshold)

/-- The no-adjacent-double-space relation left by whitespace collapsing. -/
def noSpPair (a b : Char) : Prop := ¬(a = ' ' ∧ b = ' ')

/-- A character the normalizer can emit: fixed by all four replacement
maps, not in the removal set, and a plain space if whitespace at all. -/
def cleanChar (c : Char) : Prop :=
  mapAlef c = c ∧ mapYaa c = c ∧ mapTaa c = c ∧ mapWaw c = c ∧
  c ∉ removedChars ∧ (isWS c = true → c = ' ')

/-! ## Theorems

The remainder of the file proves the specification's claims about the
embedded program. -/

set_option maxRecDepth 20000

/-- C1: the data model requires `smartMatch` scores in `[0,1]` and the
token-set-ratio documentation promises a score `0-1`; on these inputs the
token-set partial-match bonus pushes the score to `281/280 > 1`, and
`smartMatch` returns it as the winning fuzzy score, so the claim fails on
the code (the code contradicts its own `@returns {number} Similarity
score 0-1` contract). -/
theorem C1_tokenSetRatio_score_exceeds_one :
    tokenSetRatio "a b c d e f g abcdefg" "a b c d e f g abcdefh" = 281/280 ∧
    (1 : ℝ) < (smartMatch defaultConfig (some "a b c d e f g abcdefg")
      (some "a b c d e f g abcdefh")).score := by
  constructor
  · with_unfolding_all decide
  · have h : (smartMatch defaultConfig (some "a b c d e f g abcdefg")
        (some "a b c d e f g abcdefh")).score
        = ((bestFuzzy "a b c d e f g abcdefg" "a b c d e f g abcdefh").2 : ℝ) := rfl
    have e : (bestFuzzy "a b c d e f g abcdefg" "a b c d e f g abcdefh").2 = 281/280 := by
      with_unfolding_all decide
    rw [h, e]
    norm_num

/-- C2 counterexample: `smartMatch` scores are not symmetric.  On this
pair the token-set ratio (whose partial-match bonus averages over the
first argument's unmatched tokens) wins in one direction with `513/560`
while Jaro-Winkler wins in the other with `73/80`. -/
theorem C2_smartMatch_score_asymmetric :
    (smartMatch defaultConfig (some "a b c d e f pppq")
      (some "a b c d e f pppr zzzzzzz")).score ≠
    (smartMatch defaultConfig (some "a b c d e f pppr zzzzzzz")
      (some "a b c d e f pppq")).score := by
  have e1 : (bestFuzzy "a b c d e f pppq" "a b c d e f pppr zzzzzzz").2 = 513/560 := by
    with_unfolding_all decide
  have e2 : (bestFuzzy "a b c d e f pppr zzzzzzz" "a b c d e f pppq").2 = 73/80 := by
    with_unfolding_all decide
  have h1 : (smartMatch defaultConfig (some "a b c d e f pppq")
      (some "a b c d e f pppr zzzzzzz")).score = ((513/560 : ℚ) : ℝ) := by
    show ((bestFuzzy "a b c d e f pppq" "a b c d e f pppr zzzzzzz").2 : ℝ) = ((513/560 : ℚ) : ℝ)
    rw [e1]
  have h2 : (smartMatch defaultConfig (some "a b c d e f pppr zzzzzzz")
      (some "a b c d e f pppq")).score = ((73/80 : ℚ) : ℝ) := by
    show ((bestFuzzy "a b c d e f pppr zzzzzzz" "a b c d e f pppq").2 : ℝ) = ((73/80 : ℚ) : ℝ)
    rw [e2]
  rw [h1, h2]
  intro hc
  have hq : (513/560 : ℚ) = 73/80 := by exact_mod_cast hc
  exact absurd hq (by norm_num)

/-- Auxiliary exponential bound: `exp(10/84) ≤ 42/37`. -/
theorem exp_tenth_le : Real.exp (10/84 : ℝ) ≤ 42/37 := by
  have h := Real.add_one_le_exp (-(10/84) : ℝ)
  have hp : (0 : ℝ) < Real.exp (10/84) := Real.exp_pos _
  have hn : Real.exp (-(10/84) : ℝ) = (Real.exp (10/84))⁻¹ := Real.exp_neg _
  rw [hn] at h
  nlinarith [mul_inv_cancel₀ (ne_of_gt hp)]

/-- Auxiliary exponential bound: `exp(−10/21) ≥ 3/5`, so the 100-vs-110
numeric score clears the weak-match threshold. -/
theorem exp_decay_ge : (3/5 : ℝ) ≤ Real.exp (-(10/21) : ℝ) := by
  have h4 : Real.exp ((4 : ℕ) * (10/84 : ℝ)) = Real.exp (10/84) ^ (4 : ℕ) :=
    Real.exp_nat_mul _ 4
  have he : Real.exp (10/21 : ℝ) = Real.exp (10/84) ^ (4 : ℕ) := by rw [← h4]; norm_num
  have hb : Real.exp (10/84 : ℝ) ^ (4:ℕ) ≤ (42/37 : ℝ)^(4:ℕ) :=
    pow_le_pow_left₀ (le_of_lt (Real.exp_pos _)) exp_tenth_le 4
  have hup : Real.exp (10/21 : ℝ) ≤ 5/3 := by
    rw [he]; exact le_trans hb (by norm_num)
  have hp : (0:ℝ) < Real.exp (10/21) := Real.exp_pos _
  have hn : Real.exp (-(10/21) : ℝ) = (Real.exp (10/21))⁻¹ := Real.exp_neg _
  rw [hn]
  nlinarith [mul_inv_cancel₀ (ne_of_gt hp)]

/-- Auxiliary exponential bound: `exp(−10/3) < 3/5`, so the 100-vs-200
numeric score misses the weak-match threshold. -/
theorem exp_decay_lt : Real.exp (-(10/3) : ℝ) < 3/5 := by
  have h := Real.add_one_le_exp (10/3 : ℝ)
  have hp : (0:ℝ) < Real.exp (10/3) := Real.exp_pos _
  have hn : Real.exp (-(10/3) : ℝ) = (Real.exp (10/3))⁻¹ := Real.exp_neg _
  rw [hn]
  nlinarith [mul_inv_cancel₀ (ne_of_gt hp)]

/-- C8: under the default configuration, `numericMatch(100, 101)` is a
`numeric_tolerance` match with score `1 − 1/100.5` and matched;
`numericMatch(100, 110)` is `numeric` with score `e^(−(10/105)·5)` and
matched; `numericMatch(100, 200)` is `numeric` with score
`e^(−(100/150)·5)` and not matched. -/
theorem C8_numericMatch_values :
    (numericMatch defaultConfig 100 101).type = .numeric_tolerance ∧
    (numericMatch defaultConfig 100 101).score = 1 - 1/100.5 ∧
    (numericMatch defaultConfig 100 101).matched ∧
    (numericMatch defaultConfig 100 110).type = .numeric ∧
    (numericMatch defaultConfig 100 110).score = Real.exp (-(10/105) * 5) ∧
    (numericMatch defaultConfig 100 110).matched ∧
    (numericMatch defaultConfig 100 200).type = .numeric ∧
    (numericMatch defaultConfig 100 200).score = Real.exp (-(100/150) * 5) ∧
    ¬ (numericMatch defaultConfig 100 200).matched := by
  have h101 : numericMatch defaultConfig 100 101 =
      { score := ((1 - (2/201 : ℚ) : ℚ) : ℝ), type := .numeric_tolerance,
        matched := True, difference := some 1 } := by
    unfold numericMatch; norm_num [defaultConfig]
  have h110 : numericMatch defaultConfig 100 110 =
      { score := Real.exp (-((2/21 : ℚ) : ℝ) * 5), type := .numeric,
        matched := ((0.6 : ℚ) : ℝ) ≤ Real.exp (-((2/21 : ℚ) : ℝ) * 5),
        difference := some 10 } := by
    unfold numericMatch; norm_num [defaultConfig]
  have h200 : numericMatch defaultConfig 100 200 =
      { score := Real.exp (-((2/3 : ℚ) : ℝ) * 5), type := .numeric,
        matched := ((0.6 : ℚ) : ℝ) ≤ Real.exp (-((2/3 : ℚ) : ℝ) * 5),
        difference := some 100 } := by
    unfold numericMatch; norm_num [defaultConfig]
  have c21 : (-((2/21 : ℚ) : ℝ) * 5) = -(10/21) := by push_cast; ring
  have c3 : (-((2/3 : ℚ) : ℝ) * 5) = -(10/3) := by push_cast; ring
  refine ⟨by rw [h101], by rw [h101]; push_cast; norm_num, by rw [h101]; trivial,
    by rw [h110], ?_, ?_, by rw [h200], ?_, ?_⟩
  · rw [h110]
    show Real.exp (-((2/21 : ℚ) : ℝ) * 5) = _
    rw [c21]; norm_num
  · rw [h110]
    show ((0.6 : ℚ) : ℝ) ≤ Real.exp (-((2/21 : ℚ) : ℝ) * 5)
    rw [c21]
    calc ((0.6 : ℚ) : ℝ) = 3/5 := by norm_num
    _ ≤ _ := exp_decay_ge
  · rw [h200]
    show Real.exp (-((2/3 : ℚ) : ℝ) * 5) = _
    rw [c3]; norm_num
  · rw [h200]
    show ¬ (((0.6 : ℚ) : ℝ) ≤ Real.exp (-((2/3 : ℚ) : ℝ) * 5))
    rw [c3]
    intro h
    have h06 : ((0.6 : ℚ) : ℝ) = 3/5 := by norm_num
    rw [h06] at h
    exact absurd h (not_le.mpr exp_decay_lt)

theorem dropWhile_head?_false {p : Char → Bool} {c : Char} :
    ∀ {l : List Char}, (List.dropWhile p l).head? = some c → p c = false := by
  intro l
  induction l with
  | nil => intro h; simp at h
  | cons a t ih =>
    intro h
    rw [List.dropWhile_cons] at h
    by_cases hp : p a = true
    · exact ih (by rwa [if_pos hp] at h)
    · rw [if_neg hp] at h
      simp at h
      subst h
      simpa using hp

theorem dropWhile_dropWhile (p : Char → Bool) (l : List Char) :
    List.dropWhile p (List.dropWhile p l) = List.dropWhile p l := by
  cases hdl : List.dropWhile p l with
  | nil => simp
  | cons h t =>
    have hf : p h = false := dropWhile_head?_false (by rw [hdl]; rfl)
    rw [List.dropWhile_cons, if_neg (by simp [hf])]

theorem trimChars_trimChars (l : List Char) : trimChars (trimChars l) = trimChars l := by
  unfold trimChars
  set p := isWS with hp
  set A := List.dropWhile p l with hA
  set B := List.dropWhile p A.reverse with hB
  cases hBe : B with
  | nil => simp [hBe]
  | cons b bt =>
    have hBne : B ≠ [] := by rw [hBe]; simp
    have hAne : A ≠ [] := by
      intro hAe
      rw [hAe] at hB
      simp at hB
      exact hBne hB
    obtain ⟨a, t, hAeq⟩ := List.exists_cons_of_ne_nil hAne
    have hpa : p a = false := dropWhile_head?_false (l := l) (by rw [← hA, hAeq]; rfl)
    obtain ⟨pre, hpre⟩ := List.dropWhile_suffix (l := A.reverse) p
    rw [← hB] at hpre
    have hlast : B.getLast? = some a := by
      have h1 : (pre ++ B).getLast? = B.getLast?.or pre.getLast? := List.getLast?_append
      rw [hpre, List.getLast?_reverse, hAeq] at h1
      simp at h1
      cases hbg : B.getLast? with
      | none => rw [List.getLast?_eq_none_iff] at hbg; exact absurd hbg hBne
      | some c =>
        rw [hbg] at h1
        simp at h1
        rw [h1]
    have hrevhead : B.reverse.head? = some a := by rw [List.head?_reverse]; exact hlast
    have hdropB : List.dropWhile p B.reverse = B.reverse := by
      cases hBr : B.reverse with
      | nil => simp
      | cons c ct =>
        have hca : c = a := by rw [hBr] at hrevhead; simpa using hrevhead
        rw [List.dropWhile_cons, hca, if_neg (by simp [hpa])]
    rw [← hBe, hdropB, List.reverse_reverse, hB, dropWhile_dropWhile]

theorem squeezeSp_head? : ∀ (a : Char) (t : List Char),
    (squeezeSp (a :: t)).head? = some a := by
  intro a t
  induction t generalizing a with
  | nil => rfl
  | cons b t2 ih =>
    rw [squeezeSp]
    by_cases hab : a = ' ' ∧ b = ' '
    · rw [if_pos hab, ih b, hab.1, hab.2]
    · rw [if_neg hab]
      rfl

theorem squeezeSp_chain' : ∀ (l : List Char), List.Chain' noSpPair (squeezeSp l) := by
  intro l
  induction l with
  | nil => simp [squeezeSp]
  | cons a t ih =>
    cases t with
    | nil => simp [squeezeSp]
    | cons b t2 =>
      rw [squeezeSp]
      by_cases hab : a = ' ' ∧ b = ' '
      · rw [if_pos hab]; exact ih
      · rw [if_neg hab]
        cases hsq : squeezeSp (b :: t2) with
        | nil => simp
        | cons c ct =>
          have hc : c = b := by
            have hh := squeezeSp_head? b t2
            rw [hsq] at hh
            simpa using hh
          refine List.chain'_cons.mpr ⟨?_, by rw [← hsq]; exact ih⟩
          rw [hc]
          exact hab

theorem squeezeSp_mem : ∀ {c : Char} {l : List Char}, c ∈ squeezeSp l → c ∈ l := by
  intro c l
  induction l with
  | nil => simp [squeezeSp]
  | cons a t ih =>
    cases t with
    | nil => simp [squeezeSp]
    | cons b t2 =>
      rw [squeezeSp]
      by_cases hab : a = ' ' ∧ b = ' '
      · rw [if_pos hab]
        intro h
        exact List.mem_cons_of_mem a (ih h)
      · rw [if_neg hab]
        intro h
        rcases List.mem_cons.mp h with h1 | h2
        · exact h1 ▸ List.mem_cons_self a _
        · exact List.mem_cons_of_mem a (ih h2)

theorem squeezeSp_eq_self {l : List Char} (h : List.Chain' noSpPair l) :
    squeezeSp l = l := by
  induction l with
  | nil => rfl
  | cons a t ih =>
    cases t with
    | nil => rfl
    | cons b t2 =>
      rw [squeezeSp, if_neg (List.chain'_cons.mp h).1,
        ih (List.chain'_cons.mp h).2]

theorem trimChars_mem {c : Char} {l : List Char} (h : c ∈ trimChars l) : c ∈ l := by
  unfold trimChars at h
  rw [List.mem_reverse] at h
  have h2 := List.Sublist.mem h (List.dropWhile_sublist _)
  rw [List.mem_reverse] at h2
  exact List.Sublist.mem h2 (List.dropWhile_sublist _)

theorem trimChars_chain' {l : List Char} (h : List.Chain' noSpPair l) :
    List.Chain' noSpPair (trimChars l) := by
  unfold trimChars
  have flipImp : ∀ a b, noSpPair a b → flip noSpPair a b := by
    intro a b hab hc
    exact hab ⟨hc.2, hc.1⟩
  have h1 : List.Chain' noSpPair (l.dropWhile isWS) := h.suffix (List.dropWhile_suffix _)
  have h2 : List.Chain' (flip noSpPair) ((l.dropWhile isWS)) := h1.imp flipImp
  have h3 : List.Chain' noSpPair ((l.dropWhile isWS).reverse) :=
    List.chain'_reverse.mpr h2
  have h4 := h3.suffix (List.dropWhile_suffix isWS)
  exact List.chain'_reverse.mpr (h4.imp flipImp)

/-- The four replacement maps fix any character they can produce. -/
theorem mapped_fixed (e : Char) :
    mapAlef (mapWaw (mapTaa (mapYaa (mapAlef e)))) = mapWaw (mapTaa (mapYaa (mapAlef e))) ∧
    mapYaa (mapWaw (mapTaa (mapYaa (mapAlef e)))) = mapWaw (mapTaa (mapYaa (mapAlef e))) ∧
    mapTaa (mapWaw (mapTaa (mapYaa (mapAlef e)))) = mapWaw (mapTaa (mapYaa (mapAlef e))) ∧
    mapWaw (mapWaw (mapTaa (mapYaa (mapAlef e)))) = mapWaw (mapTaa (mapYaa (mapAlef e))) := by
  by_cases h1 : e ∈ alefChars
  · have hA : mapAlef e = 'ا' := if_pos h1
    rw [hA]
    decide
  · have hA : mapAlef e = e := if_neg h1
    rw [hA]
    by_cases h2 : e ∈ yaaChars
    · have hY : mapYaa e = 'ي' := if_pos h2
      rw [hY]
      decide
    · have hY : mapYaa e = e := if_neg h2
      rw [hY]
      by_cases h3 : e = 'ة'
      · subst h3; decide
      · have hT : mapTaa e = e := if_neg h3
        rw [hT]
        by_cases h4 : e = 'ؤ'
        · subst h4; decide
        · have hW : mapWaw e = e := if_neg h4
          rw [hW]
          exact ⟨if_neg h1, if_neg h2, if_neg h3, if_neg h4⟩

theorem clean_of_stage (e : Char)
    (hrem : mapWaw (mapTaa (mapYaa (mapAlef e))) ∉ removedChars) :
    cleanChar (wsToSpace (mapWaw (mapTaa (mapYaa (mapAlef e))))) := by
  by_cases hws : isWS (mapWaw (mapTaa (mapYaa (mapAlef e)))) = true
  · have hc : wsToSpace (mapWaw (mapTaa (mapYaa (mapAlef e)))) = ' ' := by
      unfold wsToSpace
      rw [if_pos hws]
    rw [hc]
    exact ⟨by decide, by decide, by decide, by decide, by decide, fun _ => rfl⟩
  · have hc : wsToSpace (mapWaw (mapTaa (mapYaa (mapAlef e)))) =
        mapWaw (mapTaa (mapYaa (mapAlef e))) := by
      unfold wsToSpace
      rw [if_neg hws]
    rw [hc]
    obtain ⟨f1, f2, f3, f4⟩ := mapped_fixed e
    exact ⟨f1, f2, f3, f4, hrem, fun h => absurd h hws⟩

theorem normalizeChars_mem {c : Char} {l : List Char} (h : c ∈ normalizeChars l) :
    cleanChar c := by
  unfold normalizeChars at h
  have h1 := trimChars_mem h
  unfold collapseWS at h1
  have h2 := squeezeSp_mem h1
  rw [List.mem_map] at h2
  obtain ⟨d, hd, hdc⟩ := h2
  rw [List.mem_filter] at hd
  obtain ⟨hd1, hd2⟩ := hd
  rw [List.mem_map] at hd1
  obtain ⟨e3, he3, he3d⟩ := hd1
  rw [List.mem_map] at he3
  obtain ⟨e2, he2, he2d⟩ := he3
  rw [List.mem_map] at he2
  obtain ⟨e1, he1, he1d⟩ := he2
  rw [List.mem_map] at he1
  obtain ⟨e0, _, he0d⟩ := he1
  subst hdc he3d he2d he1d he0d
  have hrem : mapWaw (mapTaa (mapYaa (mapAlef e0))) ∉ removedChars := by
    simpa using hd2
  exact clean_of_stage e0 hrem

theorem normalizeChars_chain' (l : List Char) :
    List.Chain' noSpPair (normalizeChars l) := by
  unfold normalizeChars collapseWS
  exact trimChars_chain' (squeezeSp_chain' _)

theorem maps_eq_self {y : List Char} (h : ∀ c ∈ y, cleanChar c) :
    (((y.map mapAlef).map mapYaa).map mapTaa).map mapWaw = y := by
  have h1 : y.map mapAlef = y :=
    (List.map_congr_left (fun a ha => (h a ha).1)).trans (List.map_id y)
  rw [h1]
  have h2 : y.map mapYaa = y :=
    (List.map_congr_left (fun a ha => (h a ha).2.1)).trans (List.map_id y)
  rw [h2]
  have h3 : y.map mapTaa = y :=
    (List.map_congr_left (fun a ha => (h a ha).2.2.1)).trans (List.map_id y)
  rw [h3]
  exact (List.map_congr_left (fun a ha => (h a ha).2.2.2.1)).trans (List.map_id y)

theorem collapse_eq_self {y : List Char} (h : ∀ c ∈ y, cleanChar c)
    (hch : List.Chain' noSpPair y) : collapseWS y = y := by
  unfold collapseWS
  have hmap : y.map wsToSpace = y := by
    refine (List.map_congr_left ?_).trans (List.map_id y)
    intro a ha
    unfold wsToSpace
    by_cases hws : isWS a = true
    · rw [if_pos hws, ((h a ha).2.2.2.2.2 hws)]
      rfl
    · rw [if_neg hws]
      rfl
  rw [hmap]
  exact squeezeSp_eq_self hch

theorem normalizeChars_idem (l : List Char) :
    normalizeChars (normalizeChars l) = normalizeChars l := by
  have hclean : ∀ c ∈ normalizeChars l, cleanChar c := fun c hc => normalizeChars_mem hc
  have hch := normalizeChars_chain' l
  set y := normalizeChars l with hy
  show normalizeChars y = y
  rw [show normalizeChars y = trimChars (collapseWS
    (((((y.map mapAlef).map mapYaa).map mapTaa).map mapWaw).filter
      (fun c => c ∉ removedChars))) from rfl]
  rw [maps_eq_self hclean]
  rw [List.filter_eq_self.mpr (fun a ha => by simpa using (hclean a ha).2.2.2.2.1)]
  rw [collapse_eq_self hclean hch]
  rw [hy]
  unfold normalizeChars
  exact trimChars_trimChars _


/-- C9: the Arabic text normalizer is idempotent: for every string,
`normalize(normalize(x)) = normalize(x)`. -/
theorem C9_normalize_idempotent (x : String) :
    normalize (normalize x) = normalize x := by
  by_cases h1 : x = ""
  · simp [normalize, h1]
  · have hinner : normalize x = ⟨normalizeChars x.data⟩ := by
      rw [normalize, if_neg h1]
    rw [hinner]
    by_cases h2 : (⟨normalizeChars x.data⟩ : String) = ""
    · rw [normalize, if_pos h2]
      exact h2.symm
    · rw [normalize, if_neg h2]
      exact congrArg String.mk (normalizeChars_idem x.data)

/-- The fuzzy stage only ever classifies its result as one of the four
fuzzy types. -/
theorem bestFuzzyResult_type (cfg : MatcherConfig) (a b : String) :
    (bestFuzzyResult cfg a b).type = .fuzzy_high ∨ (bestFuzzyResult cfg a b).type = .fuzzy ∨
    (bestFuzzyResult cfg a b).type = .fuzzy_weak ∨ (bestFuzzyResult cfg a b).type = .noMatch := by
  unfold bestFuzzyResult
  dsimp only
  split_ifs <;> simp

/-- Numeric matching is symmetric in its two arguments. -/
theorem numericMatch_comm (cfg : MatcherConfig) (x y : ℚ) :
    numericMatch cfg x y = numericMatch cfg y x := by
  unfold numericMatch
  by_cases hxy : x = y
  · rw [if_pos hxy, if_pos hxy.symm]
  · rw [if_neg hxy, if_neg (Ne.symm hxy)]
    have hd : |x - y| = |y - x| := abs_sub_comm x y
    have ha : (|x| + |y|) / 2 = (|y| + |x|) / 2 := by ring
    simp only [hd, ha]


/-- C2 amended: `smartMatch` scores are symmetric whenever the pair is
settled before the fuzzy-algorithms stage, i.e. whenever the result type
is not one of the four fuzzy classifications (null/missing/empty, exact,
case-insensitive exact, accepted numeric, and normalized-equal branches
are all symmetric); the counterexample shows the fuzzy stage itself is
not symmetric, its token-set partial-match bonus being computed from the
first argument's unmatched tokens. -/
theorem C2_smartMatch_score_symmetric_before_fuzzy (cfg : MatcherConfig) (a b : Option String)
    (h : (smartMatch cfg a b).type ≠ .fuzzy_high ∧ (smartMatch cfg a b).type ≠ .fuzzy ∧
         (smartMatch cfg a b).type ≠ .fuzzy_weak ∧ (smartMatch cfg a b).type ≠ .noMatch) :
    (smartMatch cfg a b).score = (smartMatch cfg b a).score := by
  have hbody : ∀ (va vb : String), smartMatch cfg (some va) (some vb) =
      (if jsTrim va = "" ∧ jsTrim vb = "" then
        { score := 1, type := .exact, matched := True }
      else if jsTrim va = "" ∨ jsTrim vb = "" then
        { score := 0, type := .missing, matched := False }
      else if jsTrim va = jsTrim vb then
        { score := 1, type := .exact, matched := True }
      else if jsToLower (jsTrim va) = jsToLower (jsTrim vb) then
        { score := 0.99, type := .exact, matched := True }
      else
        match (match parseFloatQ (stripNonNumeric (jsTrim va).data),
                    parseFloatQ (stripNonNumeric (jsTrim vb).data) with
          | some numA, some numB =>
            if ((cfg.similarThreshold : ℝ) ≤ (numericMatch cfg numA numB).score)
            then some (numericMatch cfg numA numB) else none
          | _, _ => none) with
        | some r => r
        | none =>
          if (cfg.useArabicNormalization && (isArabicStr (jsTrim va) || isArabicStr (jsTrim vb))) = true ∧
             (if (cfg.useArabicNormalization && (isArabicStr (jsTrim va) || isArabicStr (jsTrim vb))) = true
              then cleanStr (jsTrim va) else jsToLower (jsTrim va)) =
             (if (cfg.useArabicNormalization && (isArabicStr (jsTrim va) || isArabicStr (jsTrim vb))) = true
              then cleanStr (jsTrim vb) else jsToLower (jsTrim vb)) then
            { score := 0.98, type := .normalized, matched := True }
          else bestFuzzyResult cfg
            (if (cfg.useArabicNormalization && (isArabicStr (jsTrim va) || isArabicStr (jsTrim vb))) = true
             then cleanStr (jsTrim va) else jsToLower (jsTrim va))
            (if (cfg.useArabicNormalization && (isArabicStr (jsTrim va) || isArabicStr (jsTrim vb))) = true
             then cleanStr (jsTrim vb) else jsToLower (jsTrim vb)) : MatchResult) :=
    fun va vb => rfl
  match a, b with
  | none, none => rfl
  | none, some _ => rfl
  | some _, none => rfl
  | some sa, some sb =>
    rw [hbody sa sb] at h ⊢
    rw [hbody sb sa]
    by_cases h1 : jsTrim sa = "" ∧ jsTrim sb = ""
    · rw [if_pos h1, if_pos (show jsTrim sb = "" ∧ jsTrim sa = "" from ⟨h1.2, h1.1⟩)]
    · rw [if_neg h1] at h ⊢
      rw [if_neg (show ¬(jsTrim sb = "" ∧ jsTrim sa = "") from fun hc => h1 ⟨hc.2, hc.1⟩)]
      by_cases h2 : jsTrim sa = "" ∨ jsTrim sb = ""
      · rw [if_pos h2, if_pos (show jsTrim sb = "" ∨ jsTrim sa = "" from Or.symm h2)]
      · rw [if_neg h2] at h ⊢
        rw [if_neg (show ¬(jsTrim sb = "" ∨ jsTrim sa = "") from fun hc => h2 (Or.symm hc))]
        by_cases h3 : jsTrim sa = jsTrim sb
        · rw [if_pos h3, if_pos h3.symm]
        · rw [if_neg h3] at h ⊢
          rw [if_neg (Ne.symm h3)]
          by_cases h4 : jsToLower (jsTrim sa) = jsToLower (jsTrim sb)
          · rw [if_pos h4, if_pos h4.symm]
          · rw [if_neg h4] at h ⊢
            rw [if_neg (Ne.symm h4)]
            have hnumEq : (match parseFloatQ (stripNonNumeric (jsTrim sb).data),
                    parseFloatQ (stripNonNumeric (jsTrim sa).data) with
                | some numA, some numB =>
                  if ((cfg.similarThreshold : ℝ) ≤ (numericMatch cfg numA numB).score)
                  then some (numericMatch cfg numA numB) else none
                | _, _ => none)
                = (match parseFloatQ (stripNonNumeric (jsTrim sa).data),
                    parseFloatQ (stripNonNumeric (jsTrim sb).data) with
                | some numA, some numB =>
                  if ((cfg.similarThreshold : ℝ) ≤ (numericMatch cfg numA numB).score)
                  then some (numericMatch cfg numA numB) else none
                | _, _ => none) := by
              cases parseFloatQ (stripNonNumeric (jsTrim sa).data) with
              | none =>
                cases parseFloatQ (stripNonNumeric (jsTrim sb).data) with
                | none => rfl
                | some y => rfl
              | some x =>
                cases parseFloatQ (stripNonNumeric (jsTrim sb).data) with
                | none => rfl
                | some y =>
                  show (if ((cfg.similarThreshold : ℝ) ≤ (numericMatch cfg y x).score)
                      then some (numericMatch cfg y x) else none)
                    = (if ((cfg.similarThreshold : ℝ) ≤ (numericMatch cfg x y).score)
                      then some (numericMatch cfg x y) else none)
                  rw [numericMatch_comm cfg y x]
            rw [hnumEq]
            have hor : (isArabicStr (jsTrim sb) || isArabicStr (jsTrim sa)) =
                (isArabicStr (jsTrim sa) || isArabicStr (jsTrim sb)) :=
              Bool.or_comm _ _
            rw [hor]
            cases hN : (match parseFloatQ (stripNonNumeric (jsTrim sa).data),
                    parseFloatQ (stripNonNumeric (jsTrim sb).data) with
                | some numA, some numB =>
                  if ((cfg.similarThreshold : ℝ) ≤ (numericMatch cfg numA numB).score)
                  then some (numericMatch cfg numA numB) else none
                | _, _ => none) with
            | some r => rfl
            | none =>
              rw [hN] at h
              dsimp only at h ⊢
              by_cases hu : (cfg.useArabicNormalization &&
                  (isArabicStr (jsTrim sa) || isArabicStr (jsTrim sb))) = true
              · simp only [hu, eq_self_iff_true, if_true, true_and] at h ⊢
                by_cases h6 : cleanStr (jsTrim sa) = cleanStr (jsTrim sb)
                · rw [if_pos h6, if_pos h6.symm]
                · rw [if_neg h6] at h ⊢
                  rw [if_neg (Ne.symm h6)]
                  obtain ⟨n1, n2, n3, n4⟩ := h
                  rcases bestFuzzyResult_type cfg (cleanStr (jsTrim sa))
                    (cleanStr (jsTrim sb)) with ht | ht | ht | ht
                  exacts [absurd ht n1, absurd ht n2, absurd ht n3, absurd ht n4]
              · rw [Bool.not_eq_true] at hu
                simp only [hu, Bool.false_eq_true, if_false, false_and] at h ⊢
                obtain ⟨n1, n2, n3, n4⟩ := h
                rcases bestFuzzyResult_type cfg (jsToLower (jsTrim sa))
                  (jsToLower (jsTrim sb)) with ht | ht | ht | ht
                exacts [absurd ht n1, absurd ht n2, absurd ht n3, absurd ht n4]


/-- Witness for C2's amended theorem at the concrete pair `("5", null)`,
which `smartMatch` settles in the missing branch. -/
theorem C2_smartMatch_symmetry_witness :
    ((smartMatch defaultConfig (some "5") none).type ≠ .fuzzy_high ∧
     (smartMatch defaultConfig (some "5") none).type ≠ .fuzzy ∧
     (smartMatch defaultConfig (some "5") none).type ≠ .fuzzy_weak ∧
     (smartMatch defaultConfig (some "5") none).type ≠ .noMatch) ∧
    (smartMatch defaultConfig (some "5") none).score =
      (smartMatch defaultConfig none (some "5")).score := by
  have ht : (smartMatch defaultConfig (some "5") none).type = .missing := rfl
  have hhyp : (smartMatch defaultConfig (some "5") none).type ≠ .fuzzy_high ∧
      (smartMatch defaultConfig (some "5") none).type ≠ .fuzzy ∧
      (smartMatch defaultConfig (some "5") none).type ≠ .fuzzy_weak ∧
      (smartMatch defaultConfig (some "5") none).type ≠ .noMatch := by
    rw [ht]
    exact ⟨by decide, by decide, by decide, by decide⟩
  exact ⟨hhyp,
    C2_smartMatch_score_symmetric_before_fuzzy defaultConfig (some "5") none hhyp⟩

/-- C4 counterexample: a workbook whose one sheet holds only a header row
(`jsonData = [["H"]]`) still appears in the extracted sheet list, with
zero data rows — the code skips a sheet only when `jsonData.length === 0`. -/
theorem C4_header_only_sheet_kept :
    ((extractWorkbookData [("S", [["H"]])] "f.xlsx").sheets.map
      (fun s => (s.name, s.rowCount))) = [("S", 0)] := by decide

/-- The sheet-building loop of `extractWorkbookData` over a general
accumulator. -/
theorem extract_foldl_go :
    ∀ (wb : List (String × List (List String))) (acc : List ParsedSheet),
    (wb.foldl (fun acc e => if e.2.length = 0 then acc else acc ++ [mkSheet e.1 e.2]) acc).map
        (fun s => (s.name, s.rowCount)) =
      acc.map (fun s => (s.name, s.rowCount)) ++
        (wb.filter (fun e => ¬ e.2.length = 0)).map (fun e => (e.1, e.2.length - 1)) := by
  intro wb
  induction wb with
  | nil => intro acc; simp
  | cons e t ih =>
    intro acc
    rw [List.foldl_cons]
    by_cases he : e.2.length = 0
    · rw [if_pos he, ih acc, List.filter_cons]
      simp [he]
    · rw [if_neg he, ih (acc ++ [mkSheet e.1 e.2]), List.filter_cons]
      have hmk : (mkSheet e.1 e.2).name = e.1 ∧ (mkSheet e.1 e.2).rowCount = e.2.length - 1 := by
        unfold mkSheet
        refine ⟨rfl, ?_⟩
        simp [List.length_tail]
      simp [he, hmk.1, hmk.2]

/-- C4 amended: extraction drops exactly the sheets whose `sheet_to_json`
output is entirely empty; every other sheet appears, in order, with
`jsonData.length − 1` data rows — in particular a header-only sheet
appears with zero rows. -/
theorem C4_extract_keeps_nonempty_sheets (wb : List (String × List (List String))) (fn : String) :
    (extractWorkbookData wb fn).sheets.map (fun s => (s.name, s.rowCount)) =
    (wb.filter (fun e => ¬ e.2.length = 0)).map (fun e => (e.1, e.2.length - 1)) := by
  unfold extractWorkbookData
  dsimp only
  rw [extract_foldl_go wb []]
  simp


/-- C5 counterexample: a single-sheet file named `F.xlsx` whose sheet is
named `S` gets the label `F.xlsx` (the file name), not the sheet name `S`
the claim promises. -/
theorem C5_single_sheet_label_is_filename :
    ((prepareForComparison [⟨"F.xlsx", [⟨"S", [], [], 0, 0⟩], 1, 0⟩]).sheets.map
      (fun s => s.label)) = ["F.xlsx"] ∧
    ¬ ((prepareForComparison [⟨"F.xlsx", [⟨"S", [], [], 0, 0⟩], 1, 0⟩]).sheets.map
      (fun s => s.label)) = ["S"] := by
  constructor <;> decide

/-- Mapping a function of the element over an enumerated list ignores the
indices. -/
theorem enumFrom_map_snd {α β : Type} (f : α → β) :
    ∀ (n : Nat) (l : List α), (List.enumFrom n l).map (fun p => f p.2) = l.map f := by
  intro n l
  induction l generalizing n with
  | nil => rfl
  | cons a t ih => simp [List.enumFrom, ih]

/-- The labels produced by `prepareForComparison`'s flattening loop. -/
theorem prep_labels_go :
    ∀ (n : Nat) (pfs : List ParsedFile),
    (((List.enumFrom n pfs).map
      (fun fp => fp.2.sheets.enum.map
        (fun sp =>
          ({ id := "file" ++ toString fp.1 ++ "_sheet" ++ toString sp.1,
             label := if fp.2.sheets.length > 1
               then fp.2.fileName ++ " - " ++ sp.2.name
               else fp.2.fileName,
             fileName := fp.2.fileName,
             sheetName := sp.2.name,
             headers := sp.2.headers,
             rows := sp.2.rows,
             rowCount := sp.2.rowCount } : PrepSheet)))).flatten).map (fun s => s.label)
    = (pfs.map (fun f => f.sheets.map (fun s =>
        if f.sheets.length > 1 then f.fileName ++ " - " ++ s.name
        else f.fileName))).flatten := by
  intro n pfs
  induction pfs generalizing n with
  | nil => rfl
  | cons f t ih =>
    rw [List.enumFrom, List.map_cons, List.flatten_cons, List.map_append, List.map_cons,
      List.flatten_cons]
    rw [ih (n + 1)]
    congr 1
    rw [List.map_map]
    exact enumFrom_map_snd
      (fun s : ParsedSheet =>
        if f.sheets.length > 1 then f.fileName ++ " - " ++ s.name else f.fileName)
      0 f.sheets

/-- C5 amended: a sheet from a single-sheet file receives the file name
alone as its label, and a sheet from a multi-sheet file receives
`"<fileName> - <sheetName>"`. -/
theorem C5_prepare_labels (parsedFiles : List ParsedFile) :
    (prepareForComparison parsedFiles).sheets.map (fun s => s.label) =
    (parsedFiles.map (fun f => f.sheets.map (fun s =>
      if f.sheets.length > 1 then f.fileName ++ " - " ++ s.name
      else f.fileName))).flatten := by
  unfold prepareForComparison
  dsimp only
  exact prep_labels_go 0 parsedFiles


theorem takeWhile_eq_self_of {p : Char → Bool} :
    ∀ {l : List Char}, (∀ c ∈ l, p c = true) → l.takeWhile p = l := by
  intro l
  induction l with
  | nil => intro _; rfl
  | cons c t ih =>
    intro h
    rw [List.takeWhile_cons, if_pos (h c (List.mem_cons_self c t))]
    rw [ih (fun d hd => h d (List.mem_cons_of_mem c hd))]

theorem dropWhile_eq_self_of {p : Char → Bool} {l : List Char}
    (h : ∀ c ∈ l, p c = false) : l.dropWhile p = l := by
  cases l with
  | nil => rfl
  | cons c t =>
    rw [List.dropWhile_cons, if_neg (by simp [h c (List.mem_cons_self c t)])]

theorem trimChars_eq_self_of {l : List Char}
    (h : ∀ c ∈ l, isWS c = false) : trimChars l = l := by
  unfold trimChars
  rw [dropWhile_eq_self_of h,
    dropWhile_eq_self_of (fun c hc => h c (List.mem_reverse.mp hc)),
    List.reverse_reverse]

theorem digit_not_ws {c : Char} (h : c.isDigit = true) : isWS c = false := by
  by_contra hw
  rw [Bool.not_eq_false] at hw
  simp only [isWS, Bool.or_eq_true, decide_eq_true_eq] at hw
  rcases hw with h1 | h1 | h1 | h1 <;> (subst h1; exact absurd h (by decide))

theorem splitAnyWS_no_ws {l : List Char} (h : ∀ c ∈ l, isWS c = false) :
    splitAnyWS l = [l] := by
  induction l with
  | nil => rfl
  | cons c t ih =>
    rw [splitAnyWS]
    have hc : isWS c = false := h c (List.mem_cons_self c t)
    rw [ih (fun d hd => h d (List.mem_cons_of_mem c hd))]
    simp [hc]

/-- A non-empty all-digit string of at most 7 characters passes the
numeric-id test and fails the email, phone and name shape tests. -/
theorem digit_string_shape (v : String) (hne : ¬ v.data = [])
    (hd : v.data.all Char.isDigit = true) (hlen : v.data.length ≤ 7) :
    jsTrim v = v ∧ isNumericId v = true ∧ emailLike v = false ∧
    phoneLike v = false ∧ nameLike v = false := by
  have hdm : ∀ c ∈ v.data, c.isDigit = true := by
    intro c hc
    exact List.all_eq_true.mp hd c hc
  have hnws : ∀ c ∈ v.data, isWS c = false := fun c hc => digit_not_ws (hdm c hc)
  have htrim : jsTrim v = v := by
    unfold jsTrim
    rw [trimChars_eq_self_of hnws]
  refine ⟨htrim, ?_, ?_, ?_, ?_⟩
  · simp only [isNumericId, htrim]
    simp [hne, hd]
  · simp only [emailLike]
    have hq : ∀ c ∈ v.data, (¬ c = '@' ∧ ¬ (isWS c = true) : Bool) = true := by
      intro c hc
      have h1 := hdm c hc
      have h2 := hnws c hc
      simp [h2]
      intro he
      subst he
      simp at h1
    rw [takeWhile_eq_self_of hq, List.drop_length]
  · simp only [phoneLike]
    have hfilter : v.data.filter (fun c => ¬ (isWS c = true)) = v.data := by
      rw [List.filter_eq_self]
      intro c hc
      simp [hnws c hc]
    rw [hfilter]
    refine decide_eq_false ?_
    rintro ⟨-, h8, -⟩
    omega
  · simp only [nameLike, htrim]
    rw [splitAnyWS_no_ws hnws]
    have : ([v.data].filter (fun w => ¬ w = [])) = [v.data] := by
      rw [List.filter_eq_self]
      intro a ha
      simp at ha
      simp [ha, hne]
    rw [this]
    simp

theorem dedupAux_of_nodup {α : Type} [DecidableEq α] :
    ∀ (l seen : List α), l.Nodup → (∀ x ∈ l, x ∉ seen) → dedupAux l seen = l := by
  intro l
  induction l with
  | nil => intro seen _ _; rfl
  | cons x t ih =>
    intro seen hnd hd
    rw [dedupAux, if_neg (hd x (List.mem_cons_self x t))]
    congr 1
    refine ih (x :: seen) (List.Nodup.of_cons hnd) ?_
    intro y hy hmem
    rcases List.mem_cons.mp hmem with he | hm
    · subst he
      exact (List.nodup_cons.mp hnd).1 hy
    · exact hd y (List.mem_cons_of_mem x hy) hm

theorem lowerChar_digit {c : Char} (h : c.isDigit = true) : lowerChar c = c := by
  unfold lowerChar
  rw [if_neg]
  rintro ⟨h1, -⟩
  rw [Char.le_def] at h1
  simp only [Char.isDigit] at h
  rw [Bool.and_eq_true, decide_eq_true_eq, decide_eq_true_eq] at h
  have h2 := h.2
  change c.val ≤ 57 at h2
  change (65 : UInt32) ≤ c.val at h1
  have h1n : (65 : UInt32).toNat ≤ c.val.toNat := h1
  have h2n : c.val.toNat ≤ (57 : UInt32).toNat := h2
  exact absurd (le_trans h1n h2n) (by decide)

theorem map_lowerChar_digits :
    ∀ {l : List Char}, l.all Char.isDigit = true → l.map lowerChar = l := by
  intro l
  induction l with
  | nil => intro _; rfl
  | cons c t ih =>
    intro hd
    rw [List.all_cons, Bool.and_eq_true] at hd
    rw [List.map_cons, lowerChar_digit hd.1, ih hd.2]

theorem jsToLower_digits {v : String} (hd : v.data.all Char.isDigit = true) :
    jsToLower v = v := by
  unfold jsToLower
  rw [map_lowerChar_digits hd]

theorem filterMap_some_some {α : Type} (l : List α) :
    ((l.map (fun v => some (some v))).filterMap id).filterMap id = l := by
  induction l with
  | nil => rfl
  | cons x t ih =>
    show x :: ((t.map (fun v => some (some v))).filterMap id).filterMap id = x :: t
    rw [ih]

theorem map_eq_self_of {α : Type} {f : α → α} :
    ∀ {l : List α}, (∀ a ∈ l, f a = a) → l.map f = l := by
  intro l
  induction l with
  | nil => intro _; rfl
  | cons x t ih =>
    intro h
    rw [List.map_cons, h x (List.mem_cons_self x t),
      ih (fun a ha => h a (List.mem_cons_of_mem x ha))]

theorem analyzeColumnData_digits (vs : List String)
    (hlen : vs.length = 20)
    (hshape : ∀ v ∈ vs,
      ¬ v.data = [] ∧ v.data.all Char.isDigit = true ∧ v.data.length ≤ 7)
    (hnodup : vs.Nodup) :
    analyzeColumnData (vs.map (fun v => some (some v))) =
      ⟨8, ["قيم فريدة بنسبة عالية", "أرقام تعريفية"], some .id⟩ := by
  have hshape' : ∀ v ∈ vs, jsTrim v = v ∧ isNumericId v = true ∧
      emailLike v = false ∧ phoneLike v = false ∧ nameLike v = false := by
    intro v hv
    obtain ⟨h1, h2, h3⟩ := hshape v hv
    exact digit_string_shape v h1 h2 h3
  have hvals : ((vs.map (fun v => some (some v))).filterMap id).filterMap id = vs :=
    filterMap_some_some vs
  have hfil : vs.filter (fun v => (¬ jsTrim v = "" : Bool)) = vs := by
    rw [List.filter_eq_self]
    intro v hv
    rw [(hshape' v hv).1, decide_eq_true_eq]
    intro he
    exact (hshape v hv).1 (by rw [he])
  have hlower : vs.map jsToLower = vs :=
    map_eq_self_of (fun v hv => jsToLower_digits (hshape v hv).2.1)
  have hded : dedupFirst vs = vs :=
    dedupAux_of_nodup vs [] hnodup (by intro x _ hx; exact (List.not_mem_nil x) hx)
  have hnum : vs.filter isNumericId = vs :=
    List.filter_eq_self.mpr (fun v hv => (hshape' v hv).2.1)
  have hemail : vs.filter emailLike = [] := by
    rw [List.filter_eq_nil_iff]
    intro v hv
    simp [(hshape' v hv).2.2.1]
  have hphone : vs.filter phoneLike = [] := by
    rw [List.filter_eq_nil_iff]
    intro v hv
    simp [(hshape' v hv).2.2.2.1]
  have hname : vs.filter nameLike = [] := by
    rw [List.filter_eq_nil_iff]
    intro v hv
    simp [(hshape' v hv).2.2.2.2]
  simp only [analyzeColumnData]
  rw [hvals, hfil, List.length_map, hlen, hlower, hded, hnum, hemail, hphone, hname, hlen]
  norm_num

theorem keywordPass_employee_id :
    keywordPass ⟨⟨0, "Employee ID", "Employee ID"⟩, 0, none, 0, []⟩ =
      ⟨⟨0, "Employee ID", "Employee ID"⟩, 34, some .name, 0,
       ["يحتوي على كلمة \"id\"", "يحتوي على كلمة \"employee\""]⟩ := by
  with_unfolding_all rfl

theorem scoreHeader_digits (vs : List String)
    (hlen : vs.length = 20)
    (hshape : ∀ v ∈ vs,
      ¬ v.data = [] ∧ v.data.all Char.isDigit = true ∧ v.data.length ≤ 7)
    (hnodup : vs.Nodup) :
    scoreHeader (vs.map (fun v => ⟨[("Employee ID", some v)], 0⟩))
        ⟨0, "Employee ID", "Employee ID"⟩ =
      ⟨⟨0, "Employee ID", "Employee ID"⟩, 42, some .name, 0,
       ["يحتوي على كلمة \"id\"", "يحتوي على كلمة \"employee\"",
        "قيم فريدة بنسبة عالية", "أرقام تعريفية"]⟩ := by
  have hcols : (vs.map (fun v => (⟨[("Employee ID", some v)], 0⟩ : Row))).map
      (fun row => row.data.lookup "Employee ID") = vs.map (fun v => some (some v)) := by
    rw [List.map_map]
    with_unfolding_all rfl
  simp only [scoreHeader]
  rw [keywordPass_employee_id, hcols, analyzeColumnData_digits vs hlen hshape hnodup,
    List.length_map, hlen]
  with_unfolding_all rfl

theorem digit_ne_plus {c : Char} (h : c.isDigit = true) : ¬ c = '+' := by
  intro he
  subst he
  exact absurd h (by decide)

theorem digit_ne_lparen {c : Char} (h : c.isDigit = true) : ¬ c = '(' := by
  intro he
  subst he
  exact absurd h (by decide)

theorem digit_ne_rparen {c : Char} (h : c.isDigit = true) : ¬ c = ')' := by
  intro he
  subst he
  exact absurd h (by decide)

theorem phoneTailChar_of_digit {c : Char} (h : c.isDigit = true) :
    phoneTailChar c = true := by
  unfold phoneTailChar
  exact decide_eq_true (Or.inl h)

theorem phoneLike_long_digits (v : String)
    (hd : v.data.all Char.isDigit = true) (h8 : 8 ≤ v.data.length)
    (h15 : v.data.length ≤ 15) : phoneLike v = true := by
  have hdm : ∀ c ∈ v.data, c.isDigit = true := by
    intro c hc
    exact List.all_eq_true.mp hd c hc
  have hnws : ∀ c ∈ v.data, isWS c = false := fun c hc => digit_not_ws (hdm c hc)
  simp only [phoneLike]
  have hfilter : v.data.filter (fun c => ¬ (isWS c = true)) = v.data := by
    rw [List.filter_eq_self]
    intro c hc
    simp [hnws c hc]
  rw [hfilter]
  obtain ⟨c, t, hct⟩ : ∃ c t, v.data = c :: t := by
    cases hv : v.data with
    | nil => rw [hv] at h8; exact absurd h8 (by decide)
    | cons c t => exact ⟨c, t, rfl⟩
  have hcd : c.isDigit = true := hdm c (by rw [hct]; exact List.mem_cons_self c t)
  have htd : ∀ x ∈ t, x.isDigit = true :=
    fun x hx => hdm x (by rw [hct]; exact List.mem_cons_of_mem c hx)
  have h8' : 8 ≤ (c :: t).length := by rw [← hct]; exact h8
  have h15' : (c :: t).length ≤ 15 := by rw [← hct]; exact h15
  have hall : ∀ x ∈ c :: t, x.isDigit = true := by
    intro x hx
    rcases List.mem_cons.mp hx with he | hm
    · rw [he]; exact hcd
    · exact htd x hm
  rw [hct]
  simp only [List.headD_cons]
  rw [if_neg (digit_ne_plus hcd)]
  simp only [List.headD_cons]
  rw [if_neg (digit_ne_lparen hcd), takeWhile_eq_self_of hall]
  refine decide_eq_true ?_
  refine ⟨⟨List.cons_ne_nil c t, ?_⟩, h8', h15'⟩
  rw [List.any_eq_true]
  refine ⟨0, List.mem_range.mpr (by omega), ?_⟩
  simp only [List.drop_succ_cons, List.drop_zero]
  obtain ⟨c2, t2, ht2⟩ : ∃ c2 t2, t = c2 :: t2 := by
    cases hv : t with
    | nil => rw [hv] at h8'; exact absurd h8' (by simp)
    | cons c2 t2 => exact ⟨c2, t2, rfl⟩
  have hc2d : c2.isDigit = true := htd c2 (by rw [ht2]; exact List.mem_cons_self c2 t2)
  rw [ht2]
  simp only [List.headD_cons]
  rw [if_neg (digit_ne_rparen hc2d)]
  rw [← ht2]
  exact List.all_eq_true.mpr (fun x hx => phoneTailChar_of_digit (htd x hx))

/-- A non-empty all-digit string passes the numeric-id test and fails the
email and name shape tests, whatever its length. -/
theorem digit_string_core (v : String) (hne : ¬ v.data = [])
    (hd : v.data.all Char.isDigit = true) :
    jsTrim v = v ∧ isNumericId v = true ∧ emailLike v = false ∧
    nameLike v = false := by
  have hdm : ∀ c ∈ v.data, c.isDigit = true := by
    intro c hc
    exact List.all_eq_true.mp hd c hc
  have hnws : ∀ c ∈ v.data, isWS c = false := fun c hc => digit_not_ws (hdm c hc)
  have htrim : jsTrim v = v := by
    unfold jsTrim
    rw [trimChars_eq_self_of hnws]
  refine ⟨htrim, ?_, ?_, ?_⟩
  · simp only [isNumericId, htrim]
    simp [hne, hd]
  · simp only [emailLike]
    have hq : ∀ c ∈ v.data, (¬ c = '@' ∧ ¬ (isWS c = true) : Bool) = true := by
      intro c hc
      have h1 := hdm c hc
      have h2 := hnws c hc
      simp [h2]
      intro he
      subst he
      simp at h1
    rw [takeWhile_eq_self_of hq, List.drop_length]
  · simp only [nameLike, htrim]
    rw [splitAnyWS_no_ws hnws]
    have : ([v.data].filter (fun w => ¬ w = [])) = [v.data] := by
      rw [List.filter_eq_self]
      intro a ha
      simp at ha
      simp [ha, hne]
    rw [this]
    simp

theorem analyzeColumnData_digits_long (vs : List String)
    (hlen : vs.length = 20)
    (hshape : ∀ v ∈ vs, v.data.all Char.isDigit = true ∧
      8 ≤ v.data.length ∧ v.data.length ≤ 15)
    (hnodup : vs.Nodup) :
    analyzeColumnData (vs.map (fun v => some (some v))) =
      ⟨11, ["قيم فريدة بنسبة عالية", "أرقام تعريفية", "أرقام هاتف"],
       some .phone⟩ := by
  have hnil : ∀ v ∈ vs, ¬ v.data = [] := by
    intro v hv he
    have := (hshape v hv).2.1
    rw [he] at this
    exact absurd this (by decide)
  have hshape' : ∀ v ∈ vs, jsTrim v = v ∧ isNumericId v = true ∧
      emailLike v = false ∧ nameLike v = false := by
    intro v hv
    exact digit_string_core v (hnil v hv) (hshape v hv).1
  have hvals : ((vs.map (fun v => some (some v))).filterMap id).filterMap id = vs :=
    filterMap_some_some vs
  have hfil : vs.filter (fun v => (¬ jsTrim v = "" : Bool)) = vs := by
    rw [List.filter_eq_self]
    intro v hv
    rw [(hshape' v hv).1, decide_eq_true_eq]
    intro he
    exact (hnil v hv) (by rw [he])
  have hlower : vs.map jsToLower = vs :=
    map_eq_self_of (fun v hv => jsToLower_digits (hshape v hv).1)
  have hded : dedupFirst vs = vs :=
    dedupAux_of_nodup vs [] hnodup (by intro x _ hx; exact (List.not_mem_nil x) hx)
  have hnum : vs.filter isNumericId = vs :=
    List.filter_eq_self.mpr (fun v hv => (hshape' v hv).2.1)
  have hemail : vs.filter emailLike = [] := by
    rw [List.filter_eq_nil_iff]
    intro v hv
    simp [(hshape' v hv).2.2.1]
  have hphone : vs.filter phoneLike = vs :=
    List.filter_eq_self.mpr (fun v hv =>
      phoneLike_long_digits v (hshape v hv).1 (hshape v hv).2.1 (hshape v hv).2.2)
  have hname : vs.filter nameLike = [] := by
    rw [List.filter_eq_nil_iff]
    intro v hv
    simp [(hshape' v hv).2.2.2]
  simp only [analyzeColumnData]
  rw [hvals, hfil, List.length_map, hlen, hlower, hded, hnum, hemail, hphone,
    hname, hlen]
  norm_num

theorem scoreHeader_digits_long (vs : List String)
    (hlen : vs.length = 20)
    (hshape : ∀ v ∈ vs, v.data.all Char.isDigit = true ∧
      8 ≤ v.data.length ∧ v.data.length ≤ 15)
    (hnodup : vs.Nodup) :
    scoreHeader (vs.map (fun v => ⟨[("Employee ID", some v)], 0⟩))
        ⟨0, "Employee ID", "Employee ID"⟩ =
      ⟨⟨0, "Employee ID", "Employee ID"⟩, 45, some .name, 0,
       ["يحتوي على كلمة \"id\"", "يحتوي على كلمة \"employee\"",
        "قيم فريدة بنسبة عالية", "أرقام تعريفية", "أرقام هاتف"]⟩ := by
  have hcols : (vs.map (fun v => (⟨[("Employee ID", some v)], 0⟩ : Row))).map
      (fun row => row.data.lookup "Employee ID") = vs.map (fun v => some (some v)) := by
    rw [List.map_map]
    with_unfolding_all rfl
  simp only [scoreHeader]
  rw [keywordPass_employee_id, hcols,
    analyzeColumnData_digits_long vs hlen hshape hnodup, List.length_map, hlen]
  with_unfolding_all rfl

/-- C3: For a header named "Employee ID" over 20 sampled pairwise-distinct
non-empty all-digit values, detectKeyColumn never gives the score 26 claimed
by the spec: the keyword loop credits both the id-pattern keyword "id" (+18)
and the name-pattern keyword "employee" (+16), the uniqueness bonus adds 5
and the numeric-id bonus adds 3, so values of at most 7 digits score 42 —
and values of 8 to 15 digits also pass the phone-shape test for a further
+3, scoring 45. Either way the confidence is exactly 1 and
hasConfidentMatch is true. -/
theorem C3_employee_id_detection (vs : List String)
    (hlen : vs.length = 20)
    (hdigits : ∀ v ∈ vs, ¬ v.data = [] ∧ v.data.all Char.isDigit = true)
    (hnodup : vs.Nodup) :
    ((∀ v ∈ vs, v.data.length ≤ 7) →
      (detectKeyColumn [⟨0, "Employee ID", "Employee ID"⟩]
          (vs.map (fun v => ⟨[("Employee ID", some v)], 0⟩))).suggested.map
        (fun it => (it.score, it.confidence)) = some (42, 1) ∧
      (detectKeyColumn [⟨0, "Employee ID", "Employee ID"⟩]
          (vs.map (fun v => ⟨[("Employee ID", some v)], 0⟩))).hasConfidentMatch =
        true) ∧
    ((∀ v ∈ vs, 8 ≤ v.data.length ∧ v.data.length ≤ 15) →
      (detectKeyColumn [⟨0, "Employee ID", "Employee ID"⟩]
          (vs.map (fun v => ⟨[("Employee ID", some v)], 0⟩))).suggested.map
        (fun it => (it.score, it.confidence)) = some (45, 1) ∧
      (detectKeyColumn [⟨0, "Employee ID", "Employee ID"⟩]
          (vs.map (fun v => ⟨[("Employee ID", some v)], 0⟩))).hasConfidentMatch =
        true) := by
  constructor
  · intro hshort
    have hsh := scoreHeader_digits vs hlen
      (fun v hv => ⟨(hdigits v hv).1, (hdigits v hv).2, hshort v hv⟩) hnodup
    constructor
    · simp only [detectKeyColumn]
      rw [List.map_cons, List.map_nil, hsh]
      with_unfolding_all decide
    · simp only [detectKeyColumn]
      rw [List.map_cons, List.map_nil, hsh]
      with_unfolding_all decide
  · intro hlong
    have hsh := scoreHeader_digits_long vs hlen
      (fun v hv => ⟨(hdigits v hv).2, (hlong v hv).1, (hlong v hv).2⟩) hnodup
    constructor
    · simp only [detectKeyColumn]
      rw [List.map_cons, List.map_nil, hsh]
      with_unfolding_all decide
    · simp only [detectKeyColumn]
      rw [List.map_cons, List.map_nil, hsh]
      with_unfolding_all decide

/-- Witness for C3 at the values "1" … "20" (the at-most-7-digit branch). -/
theorem C3_employee_id_detection_witness :
    (detectKeyColumn [⟨0, "Employee ID", "Employee ID"⟩]
        ((["1","2","3","4","5","6","7","8","9","10","11","12","13","14",
           "15","16","17","18","19","20"]).map
          (fun v => ⟨[("Employee ID", some v)], 0⟩))).suggested.map
      (fun it => (it.score, it.confidence)) = some (42, 1) :=
  (((C3_employee_id_detection
    ["1","2","3","4","5","6","7","8","9","10","11","12","13","14",
     "15","16","17","18","19","20"]
    (by decide) (by decide) (by decide)).1) (by decide)).1

/-- C3 counterexample: on twenty concrete distinct digit strings under the
header "Employee ID", the suggested score is 42, not the 26 computed in the
spec — the keyword loop also credits the name-pattern keyword "employee". -/
theorem C3_employee_id_score_not_26 :
    ((detectKeyColumn [⟨0, "Employee ID", "Employee ID"⟩]
        ((["1","2","3","4","5","6","7","8","9","10","11","12","13","14",
           "15","16","17","18","19","20"]).map
          (fun v => ⟨[("Employee ID", some v)], 0⟩))).suggested.map
      (fun it => it.score) = some 42) ∧
    ¬ ((detectKeyColumn [⟨0, "Employee ID", "Employee ID"⟩]
        ((["1","2","3","4","5","6","7","8","9","10","11","12","13","14",
           "15","16","17","18","19","20"]).map
          (fun v => ⟨[("Employee ID", some v)], 0⟩))).suggested.map
      (fun it => it.score) = some 26) := by
  constructor
  · with_unfolding_all rfl
  · with_unfolding_all decide


theorem analyzeRecord_fold (cfg : MatcherConfig) (record : Record) :
    ∀ (cols : List String) (a : AnalyzeAcc),
      (cols.foldl
        (fun acc column =>
          let comparison := compareColumnValues cfg (columnValuesOf record column)
          { totalScore := acc.totalScore + comparison.score,
            hasConflict := acc.hasConflict ∨ comparison.isConflict,
            hasFuzzyMatch := acc.hasFuzzyMatch ∨ comparison.isFuzzy,
            comps := acc.comps ++ [(column, comparison)] }) a) =
      ⟨a.totalScore +
         (cols.map (fun c => (compareColumnValues cfg (columnValuesOf record c)).score)).sum,
       a.hasConflict ∨
         ∃ c ∈ cols, (compareColumnValues cfg (columnValuesOf record c)).isConflict,
       a.hasFuzzyMatch ∨
         ∃ c ∈ cols, (compareColumnValues cfg (columnValuesOf record c)).isFuzzy,
       a.comps ++ cols.map (fun c => (c, compareColumnValues cfg (columnValuesOf record c)))⟩ := by
  intro cols
  induction cols with
  | nil =>
    intro a
    cases a
    simp
  | cons c t ih =>
    intro a
    rw [List.foldl_cons, ih]
    cases a
    simp [add_assoc, or_assoc]
open scoped Classical in
/-- C6: for a record present in every compared sheet, the status follows
exactly the ladder: conflict when some column comparison is flagged
isConflict and the average column score is below 0.5; otherwise matched
when the average is at least 0.95; otherwise similar when the average is at
least the active similarThreshold; otherwise conflict. -/
theorem C6_record_status_ladder (cfg : MatcherConfig) (record : Record)
    (sheetCount : Nat) (cols : List String)
    (hpresent : (record.sheetPresence.filter (fun p => p.isSome)).length = sheetCount) :
    (analyzeRecord cfg record sheetCount cols).status =
      (let avg : ℝ := if cols.length > 0 then
          ((cols.map (fun c =>
            (compareColumnValues cfg (columnValuesOf record c)).score)).sum) / cols.length
        else 1
       if (∃ c ∈ cols, (compareColumnValues cfg (columnValuesOf record c)).isConflict) ∧
           avg < 0.5 then RStatus.conflict
       else if 0.95 ≤ avg then RStatus.matched
       else if (cfg.similarThreshold : ℝ) ≤ avg then RStatus.similar
       else RStatus.conflict) := by
  simp only [analyzeRecord]
  rw [hpresent, apply_ite RecAnalysis.status, if_neg (lt_irrefl sheetCount)]
  rw [analyzeRecord_fold]
  dsimp only
  simp only [false_or, zero_add]

open scoped Classical in
/-- Witness for C6: a record present in both of two sheets, with no columns
to compare. -/
theorem C6_record_status_ladder_witness :
    ((Record.mk "k" [] [some ⟨[], 0⟩, some ⟨[], 0⟩] .unknown none).sheetPresence.filter
        (fun p => p.isSome)).length = 2 ∧
    (analyzeRecord defaultConfig
        (Record.mk "k" [] [some ⟨[], 0⟩, some ⟨[], 0⟩] .unknown none) 2 []).status =
      (let avg : ℝ := if ([] : List String).length > 0 then
          ((([] : List String).map (fun c =>
            (compareColumnValues defaultConfig
              (columnValuesOf
                (Record.mk "k" [] [some ⟨[], 0⟩, some ⟨[], 0⟩] .unknown none) c)).score)).sum) /
            ([] : List String).length
        else 1
       if (∃ c ∈ ([] : List String),
            (compareColumnValues defaultConfig
              (columnValuesOf
                (Record.mk "k" [] [some ⟨[], 0⟩, some ⟨[], 0⟩] .unknown none) c)).isConflict) ∧
           avg < 0.5 then RStatus.conflict
       else if 0.95 ≤ avg then RStatus.matched
       else if (defaultConfig.similarThreshold : ℝ) ≤ avg then RStatus.similar
       else RStatus.conflict) :=
  ⟨by decide,
   C6_record_status_ladder defaultConfig
     (Record.mk "k" [] [some ⟨[], 0⟩, some ⟨[], 0⟩] .unknown none) 2 [] (by decide)⟩


/-- Every row stored in a record — as an occurrence or in a sheet-presence
slot — has a usable (non-absent, non-empty after trimming) key value. -/
def GoodRec (key : String) (r : Record) : Prop :=
  (∀ occ ∈ r.occurrences, (keyStrOf key occ.row).isSome = true) ∧
  (∀ q ∈ r.sheetPresence, ∀ row, q = some row → (keyStrOf key row).isSome = true)

/-- All five buckets of a `Results` value hold only good records. -/
def GoodRes (key : String) (res : Results) : Prop :=
  (∀ r ∈ res.exactMatches, GoodRec key r) ∧
  (∀ r ∈ res.fuzzyMatches, GoodRec key r) ∧
  (∀ r ∈ res.differences, GoodRec key r) ∧
  (∀ r ∈ res.conflicts, GoodRec key r) ∧
  (∀ r ∈ res.all, GoodRec key r)

theorem foldl_preserves {α β : Type} (P : β → Prop) (f : β → α → β)
    (hf : ∀ b a, P b → P (f b a)) :
    ∀ (l : List α) (b : β), P b → P (l.foldl f b) := by
  intro l
  induction l with
  | nil => intro b h; exact h
  | cons x t ih => intro b h; exact ih (f b x) (hf b x h)

theorem foldl_preserves_mem {α β : Type} (P : β → Prop) (Q : α → Prop)
    (f : β → α → β) (hf : ∀ b a, P b → Q a → P (f b a)) :
    ∀ (l : List α), (∀ a ∈ l, Q a) → ∀ b, P b → P (l.foldl f b) := by
  intro l
  induction l with
  | nil => intro _ b h; exact h
  | cons x t ih =>
    intro hq b h
    exact ih (fun a ha => hq a (List.mem_cons_of_mem x ha)) (f b x)
      (hf b x h (hq x (List.mem_cons_self x t)))

theorem good_newRecord (key ks : String) (n : Nat) :
    GoodRec key (newRecord n ks) := by
  constructor
  · intro occ h
    exact absurd h (List.not_mem_nil occ)
  · intro q hq row he
    rw [List.eq_of_mem_replicate hq] at he
    exact Option.noConfusion he

theorem good_recUpdate (key : String) {row : Row}
    (h : (keyStrOf key row).isSome = true) (i : Nat) (label : String)
    (ri : Nat) {r : Record} (hr : GoodRec key r) :
    GoodRec key (recUpdate i label row ri r) := by
  constructor
  · intro occ hocc
    rcases List.mem_append.mp hocc with hm | hm
    · exact hr.1 occ hm
    · rw [List.mem_singleton.mp hm]
      exact h
  · intro q hq row' he
    rcases List.mem_or_eq_of_mem_set hq with hm | hm
    · exact hr.2 q hm row' he
    · rw [hm] at he
      rw [← Option.some.inj he]
      exact h

theorem good_mapAdd (key : String) (n i : Nat) (label : String) (row : Row)
    (ri : Nat) (ks : String) (h : (keyStrOf key row).isSome = true) :
    ∀ (l : List (String × Record)), (∀ e ∈ l, GoodRec key e.2) →
      ∀ e ∈ mapAdd n i label row ri ks l, GoodRec key e.2 := by
  intro l
  induction l with
  | nil =>
    intro _ e he
    rw [mapAdd] at he
    rw [List.mem_singleton.mp he]
    exact good_recUpdate key h i label ri (good_newRecord key ks n)
  | cons x t ih =>
    obtain ⟨k, r⟩ := x
    intro hl e he
    rw [mapAdd] at he
    split_ifs at he with hk
    · rcases List.mem_cons.mp he with hm | hm
      · rw [hm]
        exact good_recUpdate key h i label ri (hl (k, r) (List.mem_cons_self _ _))
      · exact hl e (List.mem_cons_of_mem _ hm)
    · rcases List.mem_cons.mp he with hm | hm
      · rw [hm]
        exact hl (k, r) (List.mem_cons_self _ _)
      · exact ih (fun e' he' => hl e' (List.mem_cons_of_mem _ he')) e hm

theorem good_processSheet (n : Nat) (key : String) (p : Nat × PrepSheet) :
    ∀ (m : List (String × Record)), (∀ e ∈ m, GoodRec key e.2) →
      ∀ e ∈ processSheet n key m p, GoodRec key e.2 := by
  intro m hm
  unfold processSheet
  refine foldl_preserves (fun m' => ∀ e ∈ m', GoodRec key e.2) _ ?_ _ m hm
  intro m' q hm'
  cases hks : keyStrOf key q.2 with
  | none => exact hm'
  | some ks =>
    exact good_mapAdd key n p.1 p.2.label q.2 q.1 ks (by rw [hks]; rfl) m' hm'

theorem good_buildMap (sheets : List PrepSheet) (key : String) :
    ∀ e ∈ buildMap sheets key, GoodRec key e.2 := by
  unfold buildMap
  refine foldl_preserves (fun m => ∀ e ∈ m, GoodRec key e.2)
    (processSheet sheets.length key) ?_ sheets.enum [] ?_
  · intro m p hm
    exact good_processSheet sheets.length key p m hm
  · intro e he
    exact absurd he (List.not_mem_nil e)

theorem good_append_one (key : String) {l : List Record} {r : Record}
    (hl : ∀ x ∈ l, GoodRec key x) (hr : GoodRec key r) :
    ∀ x ∈ l ++ [r], GoodRec key x := by
  intro x hx
  rcases List.mem_append.mp hx with hm | hm
  · exact hl x hm
  · rw [List.mem_singleton.mp hm]
    exact hr

theorem good_pushRecord (key : String) (res : Results) (r : Record)
    (hres : GoodRes key res) (hr : GoodRec key r) :
    GoodRes key (pushRecord res r) := by
  obtain ⟨h1, h2, h3, h4, h5⟩ := hres
  unfold pushRecord
  cases r.status
  case unknown => exact ⟨h1, h2, h3, h4, good_append_one key h5 hr⟩
  case matched =>
    exact ⟨good_append_one key h1 hr, h2, h3, h4, good_append_one key h5 hr⟩
  case similar =>
    exact ⟨h1, good_append_one key h2 hr, h3, h4, good_append_one key h5 hr⟩
  case missing =>
    exact ⟨h1, h2, good_append_one key h3 hr, h4, good_append_one key h5 hr⟩
  case conflict =>
    exact ⟨h1, h2, h3, good_append_one key h4 hr, good_append_one key h5 hr⟩

theorem good_categorize (cfg : MatcherConfig) (key : String) (sheetCount : Nat)
    (cols : List String) (records : List Record)
    (hrec : ∀ r ∈ records, GoodRec key r) :
    GoodRes key (categorize cfg sheetCount cols records) := by
  unfold categorize
  refine foldl_preserves_mem (GoodRes key) (GoodRec key) _ ?_ records hrec _
    ⟨?_, ?_, ?_, ?_, ?_⟩
  · intro res r hres hr
    exact good_pushRecord key res _ hres ⟨hr.1, hr.2⟩
  all_goals intro r hr; exact absurd hr (List.not_mem_nil r)

/-- C7: in every comparison report, every record of every output bucket
stores only rows whose key-column value is present and non-empty after
trimming — a row skipped for a bad key never appears anywhere. -/
theorem C7_skipped_rows_absent (sheets : List PrepSheet) (keyColumn : String)
    (compareColumns : Option (List String)) (threshold : ℚ) :
    List.Forall
      (fun r =>
        List.Forall (fun occ => (keyStrOf keyColumn occ.row).isSome = true)
          r.occurrences ∧
        List.Forall
          (fun q => ∀ row, q = some row → (keyStrOf keyColumn row).isSome = true)
          r.sheetPresence)
      ((buildReport sheets keyColumn compareColumns threshold).results.exactMatches ++
       (buildReport sheets keyColumn compareColumns threshold).results.fuzzyMatches ++
       (buildReport sheets keyColumn compareColumns threshold).results.differences ++
       (buildReport sheets keyColumn compareColumns threshold).results.conflicts ++
       (buildReport sheets keyColumn compareColumns threshold).results.all) := by
  have hmap : ∀ r ∈ (buildMap sheets keyColumn).map (fun e => e.2),
      GoodRec keyColumn r := by
    intro r hr
    rcases List.mem_map.mp hr with ⟨e, he, hre⟩
    rw [← hre]
    exact good_buildMap sheets keyColumn e he
  have hres : GoodRes keyColumn
      ((buildReport sheets keyColumn compareColumns threshold).results) :=
    good_categorize _ keyColumn _ _ _ hmap
  obtain ⟨h1, h2, h3, h4, h5⟩ := hres
  rw [List.forall_iff_forall_mem]
  intro r hr
  have hgood : GoodRec keyColumn r := by
    simp only [List.mem_append] at hr
    rcases hr with ((((hm | hm) | hm) | hm) | hm)
    · exact h1 r hm
    · exact h2 r hm
    · exact h3 r hm
    · exact h4 r hm
    · exact h5 r hm
  exact ⟨List.forall_iff_forall_mem.mpr hgood.1,
    List.forall_iff_forall_mem.mpr hgood.2⟩


/-- The four buckets are exactly the status-filtered views of `all`, and no
stored record keeps the initial `unknown` status. -/
def PartRes (res : Results) : Prop :=
  res.exactMatches = res.all.filter (fun r => r.status = RStatus.matched) ∧
  res.fuzzyMatches = res.all.filter (fun r => r.status = RStatus.similar) ∧
  res.differences = res.all.filter (fun r => r.status = RStatus.missing) ∧
  res.conflicts = res.all.filter (fun r => r.status = RStatus.conflict) ∧
  (∀ r ∈ res.all, ¬ r.status = RStatus.unknown)

theorem pushRecord_all (res : Results) (r : Record) :
    (pushRecord res r).all = res.all ++ [r] := by
  unfold pushRecord
  cases r.status <;> rfl

theorem ite_ne_unknown {c : Prop} [Decidable c] {a b : RStatus}
    (ha : ¬ a = RStatus.unknown) (hb : ¬ b = RStatus.unknown) :
    ¬ (if c then a else b) = RStatus.unknown := by
  by_cases hc : c
  · rw [if_pos hc]; exact ha
  · rw [if_neg hc]; exact hb

open scoped Classical in
theorem analyzeRecord_status_ne_unknown (cfg : MatcherConfig) (record : Record)
    (sheetCount : Nat) (cols : List String) :
    ¬ (analyzeRecord cfg record sheetCount cols).status = RStatus.unknown := by
  unfold analyzeRecord
  rw [apply_ite RecAnalysis.status]
  dsimp only
  exact ite_ne_unknown (fun h => RStatus.noConfusion h)
    (ite_ne_unknown (fun h => RStatus.noConfusion h)
      (ite_ne_unknown (fun h => RStatus.noConfusion h)
        (ite_ne_unknown (fun h => RStatus.noConfusion h)
          (fun h => RStatus.noConfusion h))))

theorem part_pushRecord (res : Results) (r : Record) (hres : PartRes res)
    (hr : ¬ r.status = RStatus.unknown) : PartRes (pushRecord res r) := by
  obtain ⟨h1, h2, h3, h4, h5⟩ := hres
  unfold pushRecord PartRes
  cases hst : r.status
  case unknown => exact absurd hst hr
  all_goals refine ⟨?_, ?_, ?_, ?_, ?_⟩ <;> dsimp only
  case matched.refine_1 => rw [List.filter_append, h1]; simp [hst]
  case matched.refine_2 => rw [List.filter_append, h2]; simp [hst]
  case matched.refine_3 => rw [List.filter_append, h3]; simp [hst]
  case matched.refine_4 => rw [List.filter_append, h4]; simp [hst]
  case similar.refine_1 => rw [List.filter_append, h1]; simp [hst]
  case similar.refine_2 => rw [List.filter_append, h2]; simp [hst]
  case similar.refine_3 => rw [List.filter_append, h3]; simp [hst]
  case similar.refine_4 => rw [List.filter_append, h4]; simp [hst]
  case missing.refine_1 => rw [List.filter_append, h1]; simp [hst]
  case missing.refine_2 => rw [List.filter_append, h2]; simp [hst]
  case missing.refine_3 => rw [List.filter_append, h3]; simp [hst]
  case missing.refine_4 => rw [List.filter_append, h4]; simp [hst]
  case conflict.refine_1 => rw [List.filter_append, h1]; simp [hst]
  case conflict.refine_2 => rw [List.filter_append, h2]; simp [hst]
  case conflict.refine_3 => rw [List.filter_append, h3]; simp [hst]
  case conflict.refine_4 => rw [List.filter_append, h4]; simp [hst]
  all_goals
    intro x hx
    rcases List.mem_append.mp hx with hm | hm
  all_goals first
    | exact h5 x hm
    | (rw [List.mem_singleton.mp hm, hst]; intro hc; exact RStatus.noConfusion hc)

open scoped Classical in
theorem part_categorize (cfg : MatcherConfig) (sheetCount : Nat)
    (cols : List String) (records : List Record) :
    PartRes (categorize cfg sheetCount cols records) := by
  unfold categorize
  refine foldl_preserves PartRes _ ?_ records _ ⟨rfl, rfl, rfl, rfl, ?_⟩
  · intro res rec hres
    exact part_pushRecord _ _ hres
      (analyzeRecord_status_ne_unknown cfg rec sheetCount cols)
  · intro r hr
    exact absurd hr (List.not_mem_nil r)

open scoped Classical in
theorem categorize_all_length (cfg : MatcherConfig) (sheetCount : Nat)
    (cols : List String) :
    ∀ (records : List Record) (res : Results),
      (((records.foldl
        (fun res rec =>
          let analysis := analyzeRecord cfg rec sheetCount cols
          pushRecord res
            { rec with status := analysis.status, analysis := some analysis })
        res)).all).length = res.all.length + records.length := by
  intro records
  induction records with
  | nil => intro res; rfl
  | cons x t ih =>
    intro res
    rw [List.foldl_cons, ih]
    dsimp only
    rw [pushRecord_all, List.length_append]
    simp only [List.length_cons, List.length_nil]
    omega

open scoped Classical in
theorem categorize_length (cfg : MatcherConfig) (sheetCount : Nat)
    (cols : List String) (records : List Record) :
    ((categorize cfg sheetCount cols records).all).length = records.length := by
  unfold categorize
  rw [categorize_all_length]
  simp

theorem four_filter_lengths :
    ∀ (l : List Record), (∀ r ∈ l, ¬ r.status = RStatus.unknown) →
      (l.filter (fun r => r.status = RStatus.matched)).length +
      (l.filter (fun r => r.status = RStatus.similar)).length +
      (l.filter (fun r => r.status = RStatus.missing)).length +
      (l.filter (fun r => r.status = RStatus.conflict)).length = l.length := by
  intro l
  induction l with
  | nil => intro _; rfl
  | cons x t ih =>
    intro h
    have ht := ih (fun r hr => h r (List.mem_cons_of_mem x hr))
    have hx := h x (List.mem_cons_self x t)
    rw [List.filter_cons, List.filter_cons, List.filter_cons, List.filter_cons]
    cases hst : x.status
    case unknown => exact absurd hst hx
    all_goals simp only [hst]
    all_goals simp
    all_goals omega

open scoped Classical in
/-- C10: every comparison report partitions its records — the four category
lists are exactly the status-filtered views of `results.all`, no record ends
with the initial `unknown` status, and `summary.totalRecords` equals both the
length of `results.all` and the sum of the four category counts. -/
theorem C10_report_partition (sheets : List PrepSheet) (keyColumn : String)
    (compareColumns : Option (List String)) (threshold : ℚ) :
    (buildReport sheets keyColumn compareColumns threshold).results.exactMatches =
      ((buildReport sheets keyColumn compareColumns threshold).results.all).filter
        (fun r => r.status = RStatus.matched) ∧
    (buildReport sheets keyColumn compareColumns threshold).results.fuzzyMatches =
      ((buildReport sheets keyColumn compareColumns threshold).results.all).filter
        (fun r => r.status = RStatus.similar) ∧
    (buildReport sheets keyColumn compareColumns threshold).results.differences =
      ((buildReport sheets keyColumn compareColumns threshold).results.all).filter
        (fun r => r.status = RStatus.missing) ∧
    (buildReport sheets keyColumn compareColumns threshold).results.conflicts =
      ((buildReport sheets keyColumn compareColumns threshold).results.all).filter
        (fun r => r.status = RStatus.conflict) ∧
    List.Forall (fun r => ¬ r.status = RStatus.unknown)
      ((buildReport sheets keyColumn compareColumns threshold).results.all) ∧
    (buildReport sheets keyColumn compareColumns threshold).summary.totalRecords =
      ((buildReport sheets keyColumn compareColumns threshold).results.all).length ∧
    (buildReport sheets keyColumn compareColumns threshold).summary.totalRecords =
      ((buildReport sheets keyColumn compareColumns threshold).results.exactMatches).length +
      ((buildReport sheets keyColumn compareColumns threshold).results.fuzzyMatches).length +
      ((buildReport sheets keyColumn compareColumns threshold).results.differences).length +
      ((buildReport sheets keyColumn compareColumns threshold).results.conflicts).length := by
  have hpart : PartRes ((buildReport sheets keyColumn compareColumns threshold).results) :=
    part_categorize _ _ _ _
  obtain ⟨h1, h2, h3, h4, h5⟩ := hpart
  have hlen : ((buildReport sheets keyColumn compareColumns threshold).results.all).length =
      (buildMap sheets keyColumn).length := by
    show ((categorize _ _ _ ((buildMap sheets keyColumn).map (fun e => e.2))).all).length =
      (buildMap sheets keyColumn).length
    rw [categorize_length, List.length_map]
  have h6 : (buildReport sheets keyColumn compareColumns threshold).summary.totalRecords =
      ((buildReport sheets keyColumn compareColumns threshold).results.all).length := by
    show (buildMap sheets keyColumn).length = _
    exact hlen.symm
  have hsum := four_filter_lengths
    ((buildReport sheets keyColumn compareColumns threshold).results.all) h5
  refine ⟨h1, h2, h3, h4, List.forall_iff_forall_mem.mpr h5, h6, ?_⟩
  rw [h6, h1, h2, h3, h4]
  exact hsum.symm


end ExcelCompare
